import Mathlib

/-!
Shallow embedding of `src/WorldCharClasses.py` (`WorldDefinition` and
`CharacterTemplate`).

Modelling conventions, each matching a construct of the Python source:

* Python `dict`s become association lists with Python's update semantics
  (overwrite in place when the key exists, append otherwise); iteration
  order is the list order, as in CPython.
* Python floats become exact rationals (`ℚ`); the constants `0.01`, `0.05`,
  `0.1` are decimal-exact, and every claim here concerns order/clamping
  facts that are insensitive to the float/rational distinction.
* `datetime` values become calendar dates (year, month, day).  The code
  only ever compares dates that carry the identical time of day (the
  recovery date is `current_date + timedelta(days=n)`), so the time of day
  is dropped and comparison is lexicographic, exactly as for `datetime`.
* The external services (OpenAI chat completions, the embedding + Pinecone
  vector index, `random.choice`) are passed in as an environment `Env` of
  response oracles; the vector index itself is modelled as the list
  `World.memories` of upserted records.  `summarize_day` composes an
  external similarity query with an external completion, so it is
  abstracted as one oracle reading the store.
* `CharacterTemplate` subclasses `WorldDefinition` by copying the world's
  (aliased) containers into itself; the methods under verification only
  ever read those containers through `self.world`, so the single `World`
  state is the authority and the copied fields are not duplicated.
* Characters are registered in `World.characters` under their
  `character_name` and method calls are addressed by that key; `none`
  lookups (a name that is not registered) leave the world unchanged,
  mirroring that such a call target does not exist in the registry.
-/

namespace WorldSim

/-- Association-list model of a Python `dict`: the first binding wins on
lookup (keys are unique in every dict the code builds). -/
def dictGet {α : Type} (m : List (String × α)) (k : String) : Option α :=
  match m with
  | [] => none
  | p :: rest => if p.1 = k then some p.2 else dictGet rest k

/-- `k in d` for a Python dict. -/
def dictMem {α : Type} (m : List (String × α)) (k : String) : Bool :=
  (dictGet m k).isSome

/-- `d[k] = v` for a Python dict: overwrite in place when the key exists,
append at the end otherwise (CPython insertion-order semantics). -/
def dictSet {α : Type} (m : List (String × α)) (k : String) (v : α) :
    List (String × α) :=
  if dictMem m k then m.map (fun p => if p.1 = k then (k, v) else p)
  else m ++ [(k, v)]

/-- A calendar date; `datetime` values in the code are only ever compared
and shifted at whole-day granularity. -/
structure Date where
  year : ℕ
  month : ℕ
  day : ℕ
deriving DecidableEq

/-- Gregorian leap-year rule used by `datetime`. -/
def isLeapYear (y : ℕ) : Bool :=
  y % 4 == 0 && (y % 100 != 0 || y % 400 == 0)

def daysInMonth (y m : ℕ) : ℕ :=
  if m == 2 then (if isLeapYear y then 29 else 28)
  else if m == 4 || m == 6 || m == 9 || m == 11 then 30
  else 31

/-- `date + timedelta(days=1)`. -/
def nextDay (d : Date) : Date :=
  if d.day < daysInMonth d.year d.month then ⟨d.year, d.month, d.day + 1⟩
  else if d.month < 12 then ⟨d.year, d.month + 1, 1⟩
  else ⟨d.year + 1, 1, 1⟩

/-- `date + timedelta(days=n)`. -/
def addDays (n : ℕ) (d : Date) : Date := nextDay^[n] d

/-- `datetime` order at equal times of day: lexicographic on
(year, month, day). -/
def dateLe (a b : Date) : Bool :=
  decide (a.year < b.year) || (decide (a.year = b.year) &&
    (decide (a.month < b.month) || (decide (a.month = b.month) && decide (a.day ≤ b.day))))

def pad2 (n : ℕ) : String := if n < 10 then "0" ++ toString n else toString n

def pad4 (n : ℕ) : String :=
  if n < 10 then "000" ++ toString n
  else if n < 100 then "00" ++ toString n
  else if n < 1000 then "0" ++ toString n
  else toString n

/-- `strftime("%Y-%m-%d")`. -/
def formatDate (d : Date) : String :=
  pad4 d.year ++ "-" ++ pad2 d.month ++ "-" ++ pad2 d.day

/-- Two-decimal rendering standing in for the `"{:.2f}"` format of the
friendship memory text (decimal rounding of the modelled rational). -/
def fmt2 (q : ℚ) : String :=
  let n : ℤ := round (q * 100)
  (if n < 0 then "-" else "") ++ toString (n.natAbs / 100) ++ "." ++ pad2 (n.natAbs % 100)

/-- Python `str.strip()`: drop leading and trailing whitespace (executable
over the character list). -/
def stripStr (s : String) : String :=
  String.mk (((s.data.dropWhile Char.isWhitespace).reverse.dropWhile Char.isWhitespace).reverse)

/-- One entry of `WorldDefinition.locations` (the location dicts built by
`add_location`). -/
structure Location where
  name : String
  description : String
  coordinates : ℤ × ℤ
  weather : String
  timezone : ℤ
deriving DecidableEq

/-- One entry of `WorldDefinition.global_events`. -/
structure GlobalEvent where
  name : String
  description : String
  date : String
deriving DecidableEq

/-- A record upserted into the external vector index: the metadata fields
the code attaches, minus the embedding vector and wall-clock timestamps. -/
structure MemoryRecord where
  character_name : String
  important_info : String
  is_user_memory : Bool
deriving DecidableEq

/-- Oracles for the external services.  `extract` is the GPT key-information
extraction inside `add_memory`; `summarize` the over-100-characters message
summarization; `daySummary` the similarity query plus completion of
`summarize_day`; `birthdayTasks` the parsed `generate_birthday_tasks`
completion; `randWeather` the stream of `random.choice` draws over the
four weather values. -/
structure Env where
  extract : String → String
  summarize : String → String
  daySummary : String → List MemoryRecord → String
  birthdayTasks : String → List String
  randWeather : ℕ → Fin 4

/-- The per-character state of `CharacterTemplate` (its own fields; the
fields copied from the world by the `super().__init__` call are read only
through `self.world` in the verified methods and live in `World`). -/
structure Character where
  character_name : String
  date_of_birth : Date
  personality : List (String × ℚ)
  timezone : ℤ
  location : String
  preferences : List (String × String)
  interests : List String
  goals : List String
  past_experiences : List String
  texting_style : String
  character_description : String
  friends : List (String × ℚ)
  skills : List (String × ℚ)
  is_jet_lagged : Bool
  jet_lag_recovery_date : Option Date
deriving DecidableEq

/-- The world state, together with the modelled external vector index
(`memories`), the log of printed global-event lines (`event_log`) and the
position in the random stream (`rng`). -/
structure World where
  name : String
  description : String
  locations : List Location
  global_events : List GlobalEvent
  custom_parameters : List (String × String)
  characters : List (String × Character)
  current_date : Date
  memories : List MemoryRecord
  event_log : List String
  rng : ℕ
deriving DecidableEq

/-- Constructor arguments of `CharacterTemplate.__init__` (the `timezone`
string is parsed with `int(...)`, modelled as the parsed integer). -/
structure CharInit where
  name : String
  date_of_birth : Date
  personality : List (String × ℚ)
  timezone : ℤ
  location : String
  preferences : List (String × String)
  interests : List String
  goals : List String
  past_experiences : List String
  texting_style : String
  character_description : String

/-- `CharacterTemplate.__init__`: friends and skills start empty, no jet
lag, no recovery date. -/
def mkCharacter (i : CharInit) : Character :=
  { character_name := i.name, date_of_birth := i.date_of_birth,
    personality := i.personality, timezone := i.timezone,
    location := i.location, preferences := i.preferences,
    interests := i.interests, goals := i.goals,
    past_experiences := i.past_experiences, texting_style := i.texting_style,
    character_description := i.character_description,
    friends := [], skills := [], is_jet_lagged := false,
    jet_lag_recovery_date := none }

/-- `CharacterTemplate.add_memory`: the stripped GPT extraction of `msg` is
upserted into the vector index unless the model answered the literal
two-character string of double quotes. -/
def add_memory (env : Env) (w : World) (cname msg : String) (is_user : Bool) :
    World :=
  let info := stripStr (env.extract msg)
  if info = "\"\"" then w
  else { w with memories := w.memories ++ [⟨cname, info, is_user⟩] }

/-- `CharacterTemplate.summarize_message`: verbatim at length ≤ 100,
external summarization (stripped) above. -/
def summarize_message (env : Env) (message : String) : String :=
  if message.length ≤ 100 then message
  else stripStr (env.summarize message)

/-- The experience text recorded by `receive_message`. -/
def inboundText (env : Env) (sender message : String) : String :=
  "Received a message from " ++ sender ++ ": " ++ summarize_message env message

/-- `CharacterTemplate.receive_message`. -/
def receive_message (env : Env) (w : World) (cname sender message : String) :
    World :=
  add_memory env w cname (inboundText env sender message) false

/-- The memory text recorded by `update_friendship`. -/
def friendshipText (friend_name : String) (new_level : ℚ) : String :=
  "Friendship with " ++ friend_name ++ " changed to level " ++ fmt2 new_level

/-- `CharacterTemplate.update_friendship`, addressed by registry key. -/
def update_friendship (env : Env) (w : World) (cname friend_name : String)
    (change : ℚ) : World :=
  match dictGet w.characters cname with
  | none => w
  | some c =>
    if friend_name ≠ c.character_name then
      let current_level := (dictGet c.friends friend_name).getD 0
      let new_level := max 0 (min 1 (current_level + change))
      let c' := { c with friends := dictSet c.friends friend_name new_level }
      let w' := { w with characters := dictSet w.characters cname c' }
      add_memory env w' cname (friendshipText friend_name new_level) false
    else w

/-- `CharacterTemplate.develop_skill` (touches only `self.skills`): missing
skills are first created at 0, then the level is capped at 1.0 from above
only. -/
def develop_skill (c : Character) (skill_name : String) (increase : ℚ) :
    Character :=
  let skills0 :=
    if dictMem c.skills skill_name then c.skills
    else dictSet c.skills skill_name 0
  let cur := (dictGet skills0 skill_name).getD 0
  { c with skills := dictSet skills0 skill_name (min 1 (cur + increase)) }

/-- `CharacterTemplate.add_task_done`. -/
def add_task_done (env : Env) (w : World) (cname task : String) : World :=
  add_memory env w cname ("Task completed: " ++ task) false

/-- Python tuple `<` on (month, day) pairs. -/
def pairLt (a b : ℕ × ℕ) : Bool :=
  decide (a.1 < b.1) || (decide (a.1 = b.1) && decide (a.2 < b.2))

/-- `CharacterTemplate.get_age`. -/
def get_age (w : World) (c : Character) : ℤ :=
  (w.current_date.year : ℤ) - (c.date_of_birth.year : ℤ) -
    (if pairLt (w.current_date.month, w.current_date.day)
        (c.date_of_birth.month, c.date_of_birth.day) then 1 else 0)

/-- `CharacterTemplate.is_birthday`. -/
def is_birthday (w : World) (c : Character) : Bool :=
  decide (w.current_date.month = c.date_of_birth.month) &&
    decide (w.current_date.day = c.date_of_birth.day)

/-- `CharacterTemplate.move_to_location`.  `self.world.locations` is
scanned with `next(...)`; on a miss the method body is skipped entirely. -/
def move_to_location (env : Env) (w : World) (cname location_name : String) :
    World :=
  match dictGet w.characters cname with
  | none => w
  | some c =>
    match w.locations.find? (fun loc => decide (loc.name = location_name)) with
    | none => w
    | some loc =>
      let old_timezone := c.timezone
      let c1 := { c with location := location_name, timezone := loc.timezone }
      let w1 := { w with characters := dictSet w.characters cname c1 }
      let w2 := add_memory env w1 cname ("Moved to " ++ location_name ++ ".") false
      let timezone_diff : ℕ := (loc.timezone - old_timezone).natAbs
      if 5 ≤ timezone_diff then
        let recovery_days := min (timezone_diff / 2) 7
        -- `self.world.current_date` read here: the memory upsert above never
        -- touches the calendar, so this is the incoming date
        let rdate := some (addDays recovery_days w.current_date)
        let c2 := { c1 with is_jet_lagged := true, jet_lag_recovery_date := rdate }
        let w3 := { w2 with characters := dictSet w2.characters cname c2 }
        add_memory env w3 cname
          ("Experiencing jet lag after moving to " ++ location_name ++
            ". Expected to recover in " ++ toString recovery_days ++ " days.") false
      else w2

/-- One iteration of the `for friend_name, friendship_level in
self.friends.items()` loop of `celebrate_birthday`. -/
def birthdayFriendStep (env : Env) (cname cbname : String) (age : ℤ)
    (w : World) (p : String × ℚ) : World :=
  match dictGet w.characters p.1 with
  | none => w
  | some _ =>
    let w1 := add_memory env w p.1
      ("It's " ++ cbname ++ "'s " ++ toString age ++ "th birthday today!") false
    let w2 := add_task_done env w1 p.1 ("Wished " ++ cbname ++ " a happy birthday")
    let friendship_increase := (0.05 : ℚ) * p.2
    let w3 := update_friendship env w2 cname p.1 friendship_increase
    update_friendship env w3 p.1 cbname friendship_increase

/-- `CharacterTemplate.celebrate_birthday`.  The loop reads the snapshot of
`self.friends`; during it only the currently visited key of that dict and
other characters' dicts are written, so the snapshot equals the live view. -/
def celebrate_birthday (env : Env) (w : World) (cname : String) : World :=
  match dictGet w.characters cname with
  | none => w
  | some c =>
    let age := get_age w c
    let w1 := add_memory env w cname
      ("Celebrated " ++ c.character_name ++ "'s " ++ toString age ++ "th birthday!") false
    let w2 := c.friends.foldl (birthdayFriendStep env cname c.character_name age) w1
    (env.birthdayTasks c.character_name).foldl
      (fun wa t => add_task_done env wa cname t) w2

/-- The `current_date >= jet_lag_recovery_date` test of `update_daily`.  In
Python a `None` recovery date with the flag set would raise; that state is
unreachable from the constructor (the flag is only ever set together with a
recovery date), and the model returns `false` there. -/
def jetLagDue (w : World) (c : Character) : Bool :=
  match c.jet_lag_recovery_date with
  | some r => dateLe r w.current_date
  | none => false

/-- `CharacterTemplate.update_daily`: birthday check, jet-lag recovery
check, then the end-of-day summary memory. -/
def update_daily (env : Env) (w : World) (cname : String) : World :=
  match dictGet w.characters cname with
  | none => w
  | some c0 =>
    let w1 := if is_birthday w c0 then celebrate_birthday env w cname else w
    let w2 :=
      match dictGet w1.characters cname with
      | none => w1
      | some c1 =>
        if c1.is_jet_lagged && jetLagDue w1 c1 then
          add_memory env
            { w1 with characters :=
                dictSet w1.characters cname { c1 with is_jet_lagged := false } }
            cname "Recovered from jet lag." false
        else w1
    add_memory env w2 cname (env.daySummary cname w2.memories) false

/-- `CharacterTemplate.communicate`: deliver, then nudge both directions of
the friendship by 0.01. -/
def communicate (env : Env) (w : World) (cname friend_name message : String) :
    World :=
  match dictGet w.characters cname with
  | none => w
  | some a =>
    match dictGet w.characters friend_name with
    | none => w
    | some _ =>
      let w1 := receive_message env w friend_name a.character_name message
      let w2 := update_friendship env w1 cname friend_name 0.01
      update_friendship env w2 friend_name a.character_name 0.01

/-- `CharacterTemplate.initialize_friendships`: a zero entry for every
other registered name (called after the character is registered). -/
def init_friendships (w : World) (c : Character) : Character :=
  let fs1 := (w.characters.map Prod.fst).foldl
    (fun fs n => if n ≠ c.character_name then dictSet fs n 0 else fs) c.friends
  { c with friends := fs1 }

/-- `WorldDefinition.add_character`: register, initialize the newcomer's
friendships, then backfill a zero entry into every other character's map
(`existing_char != character` is object identity; within one world the
registry key equals the stored character's name, so it coincides with key
inequality). -/
def add_character (w : World) (c : Character) : World :=
  let w1 := { w with characters := dictSet w.characters c.character_name c }
  let c1 := init_friendships w1 c
  let w2 := { w1 with characters := dictSet w1.characters c.character_name c1 }
  { w2 with characters := w2.characters.map (fun p =>
      if p.1 = c.character_name then p
      else (p.1, { p.2 with friends := dictSet p.2.friends c.character_name 0 })) }

/-- `random.choice(["Sunny", "Rainy", "Cloudy", "Stormy"])` applied to one
draw of the stream. -/
def weatherOf : Fin 4 → String
  | 0 => "Sunny"
  | 1 => "Rainy"
  | 2 => "Cloudy"
  | 3 => "Stormy"

/-- The `for location in self.locations` loop of `_update_weather`: one
fresh draw per location. -/
def rerollList (env : Env) : ℕ → List Location → List Location
  | _, [] => []
  | i, loc :: rest =>
      { loc with weather := weatherOf (env.randWeather i) } :: rerollList env (i + 1) rest

/-- `WorldDefinition._update_weather`. -/
def update_weather (env : Env) (w : World) : World :=
  { w with locations := rerollList env w.rng w.locations,
           rng := w.rng + w.locations.length }

/-- `WorldDefinition._trigger_events` (the printed lines are logged). -/
def trigger_events (w : World) : World :=
  let fired := (w.global_events.filter (fun e => decide (e.date = formatDate w.current_date))).map
    (fun e => "Global Event Triggered: " ++ e.name ++ " - " ++ e.description)
  { w with event_log := w.event_log ++ fired }

/-- One iteration of the `advance_time` loop: bump the date, re-roll the
weather, fire events, then run every registered character's daily update
once, in registry order. -/
def dayStep (env : Env) (w : World) : World :=
  let w1 := { w with current_date := nextDay w.current_date }
  let w2 := update_weather env w1
  let w3 := trigger_events w2
  (w3.characters.map Prod.fst).foldl (update_daily env) w3

/-- `WorldDefinition.advance_time(days)`. -/
def advance_time (env : Env) (days : ℕ) (w : World) : World :=
  match days with
  | 0 => w
  | n + 1 => advance_time env n (dayStep env w)

/-- The operations a driving program (such as `functionalityexample.py`)
issues against the simulation. -/
inductive SimOp where
  | addChar (i : CharInit)
  | updateFriendship (a b : String) (q : ℚ)
  | sendMessage (a b m : String)
  | moveTo (a l : String)
  | birthday (a : String)
  | advanceDays (n : ℕ)

def applyOp (env : Env) (w : World) : SimOp → World
  | .addChar i => add_character w (mkCharacter i)
  | .updateFriendship a b q => update_friendship env w a b q
  | .sendMessage a b m => communicate env w a b m
  | .moveTo a l => move_to_location env w a l
  | .birthday a => celebrate_birthday env w a
  | .advanceDays n => advance_time env n w

def applyOps (env : Env) (ops : List SimOp) (w : World) : World :=
  ops.foldl (applyOp env) w

/-- A sequence of `develop_skill` calls on one character. -/
def applySkillOps (c : Character) (ops : List (String × ℚ)) : Character :=
  ops.foldl (fun ca op => develop_skill ca op.1 op.2) c

/-- A sequence of `update_friendship` calls (caller, friend, delta). -/
def applyFriendshipOps (env : Env) (w : World) (ops : List (String × String × ℚ)) :
    World :=
  ops.foldl (fun wa op => update_friendship env wa op.1 op.2.1 op.2.2) w

/-- Every registered character is stored under its own name (holds in any
world built through `add_character`, since `character_name` is never
reassigned). -/
def namesConsistent (w : World) : Prop :=
  ∀ p ∈ w.characters, p.2.character_name = p.1

/-- No character's friendship map contains its own name as a key. -/
def NoSelfFriend (w : World) : Prop :=
  ∀ p ∈ w.characters, dictGet p.2.friends p.1 = none

/-- The registry well-formedness carried through every operation. -/
def WF (w : World) : Prop := namesConsistent w ∧ NoSelfFriend w

/-- Every friendship entry of every registered character lies in [0, 1]. -/
def friendsInRange (w : World) : Prop :=
  ∀ p ∈ w.characters, ∀ q ∈ p.2.friends, 0 ≤ q.2 ∧ q.2 ≤ 1

/-- A concrete environment used to instantiate the theorems: every external
completion is a fixed short non-empty answer and every draw is the first
weather value. -/
def envA : Env :=
  { extract := fun _ => "m", summarize := fun _ => "s",
    daySummary := fun _ _ => "d", birthdayTasks := fun _ => [],
    randWeather := fun _ => 0 }

def baseInit : CharInit :=
  { name := "X", date_of_birth := ⟨1990, 5, 15⟩, personality := [],
    timezone := 0, location := "Downtown", preferences := [], interests := [],
    goals := [], past_experiences := [], texting_style := "",
    character_description := "" }

def charNamed (n : String) : Character := mkCharacter { baseInit with name := n }

def baseWorld : World :=
  { name := "Virtual City", description := "A bustling metropolis",
    locations := [], global_events := [], custom_parameters := [],
    characters := [], current_date := ⟨2024, 5, 15⟩, memories := [],
    event_log := [], rng := 0 }

def loc0 : Location :=
  { name := "Downtown", description := "The heart of the city",
    coordinates := (0, 0), weather := "Sunny", timezone := 0 }

def w1w : World := { baseWorld with locations := [loc0] }

/-- Celebrant with an asymmetric edge: A holds strength 1/2 towards B while
B holds exactly 0 towards A. -/
def charA5 : Character := { charNamed "A" with friends := [("B", 1/2)] }

def charB5 : Character := { charNamed "B" with friends := [("A", 0)] }

def w5 : World := { baseWorld with characters := [("A", charA5), ("B", charB5)] }

def aliceC : Character := charNamed "Alice"

def wMay14 : World := { baseWorld with current_date := ⟨2024, 5, 14⟩ }

def wMay15 : World := { baseWorld with current_date := ⟨2024, 5, 15⟩ }

def wMay15b : World := { baseWorld with current_date := ⟨1999, 5, 15⟩ }

def locL9 : Location := { loc0 with name := "L9", timezone := 9 }

def locL18 : Location := { loc0 with name := "L18", timezone := 18 }

def charZ : Character := charNamed "Z"

def wJet : World :=
  { baseWorld with locations := [loc0, locL9, locL18],
                   characters := [("Z", charZ)] }

/-- A character already jet-lagged with a recovery date in the past. -/
def charZlag : Character :=
  { charZ with is_jet_lagged := true, jet_lag_recovery_date := some ⟨2024, 5, 10⟩ }

def wJet2 : World := { wJet with characters := [("Z", charZlag)] }

def msg100 : String := String.mk (List.replicate 100 'a')

def msg101 : String := String.mk (List.replicate 101 'a')

/-- The character fields untouched by friendship/memory bookkeeping. -/
def CharCoreEq (c c' : Character) : Prop :=
  c'.character_name = c.character_name ∧ c'.is_jet_lagged = c.is_jet_lagged ∧
    c'.jet_lag_recovery_date = c.jet_lag_recovery_date

/-- World evolution that keeps the calendar and the registry keys. -/
def FrameStep (w w' : World) : Prop :=
  w'.current_date = w.current_date ∧
    w'.characters.map Prod.fst = w.characters.map Prod.fst

/-- World evolution that additionally keeps every registered character's
core fields. -/
def CoreStep (w w' : World) : Prop :=
  FrameStep w w' ∧
    ∀ n c, dictGet w.characters n = some c →
      ∃ c', dictGet w'.characters n = some c' ∧ CharCoreEq c c'

theorem dictGet_append {α : Type} (m1 m2 : List (String × α)) (k : String) :
    dictGet (m1 ++ m2) k =
      (match dictGet m1 k with
       | some v => some v
       | none => dictGet m2 k) := by
  induction m1 with
  | nil => simp [dictGet]
  | cons hd tl ih =>
    obtain ⟨a, b⟩ := hd
    by_cases h : a = k <;> simp [dictGet, h, ih]

theorem dictMem_false_get {α : Type} {m : List (String × α)} {k : String}
    (h : dictMem m k = false) : dictGet m k = none := by
  unfold dictMem at h
  cases hg : dictGet m k
  · rfl
  · rw [hg] at h
    simp at h

theorem dictGet_overwrite {α : Type} (m : List (String × α)) (k k' : String) (v : α) :
    dictGet (m.map (fun p => if p.1 = k then (k, v) else p)) k' =
      if k = k' then (if dictMem m k then some v else none) else dictGet m k' := by
  induction m with
  | nil => by_cases h : k = k' <;> simp [dictGet, dictMem, h]
  | cons hd tl ih =>
    obtain ⟨a, b⟩ := hd
    by_cases ha : a = k
    · by_cases hk : k = k'
      · subst ha; subst hk
        simp [dictGet, dictMem]
      · subst ha
        simp [dictGet, dictMem, hk, ih]
    · by_cases hk : k = k'
      · subst hk
        simp [dictGet, dictMem, ha, ih]
      · have hk2 : ¬ k' = k := fun he => hk he.symm
        by_cases hak' : a = k'
        · subst hak'
          simp [dictGet, dictMem, ha, hk, hk2, ih]
        · simp [dictGet, dictMem, ha, hk, hk2, hak', ih]

theorem dictGet_set {α : Type} (m : List (String × α)) (k k' : String) (v : α) :
    dictGet (dictSet m k v) k' = if k = k' then some v else dictGet m k' := by
  unfold dictSet
  by_cases hm : dictMem m k
  · rw [if_pos hm, dictGet_overwrite]
    by_cases hk : k = k'
    · subst hk
      simp [hm]
    · simp [hk]
  · have hm' : dictMem m k = false := by simpa using hm
    rw [if_neg (by simp [hm']), dictGet_append]
    have hnone := dictMem_false_get hm'
    by_cases hk : k = k'
    · subst hk
      simp [hnone, dictGet]
    · cases hg : dictGet m k' <;> simp [dictGet, hk, hg]

theorem dictGet_set_self {α : Type} (m : List (String × α)) (k : String) (v : α) :
    dictGet (dictSet m k v) k = some v := by
  simp [dictGet_set]

theorem dictGet_set_ne {α : Type} (m : List (String × α)) {k k' : String} (v : α)
    (h : k ≠ k') : dictGet (dictSet m k v) k' = dictGet m k' := by
  simp [dictGet_set, h]

theorem overwrite_keys {α : Type} (m : List (String × α)) (k : String) (v : α) :
    (m.map (fun p => if p.1 = k then (k, v) else p)).map Prod.fst = m.map Prod.fst := by
  induction m with
  | nil => rfl
  | cons hd tl ih =>
    obtain ⟨a, b⟩ := hd
    by_cases ha : a = k <;> simp [ha, ih]

theorem dictSet_keys_of_mem {α : Type} {m : List (String × α)} {k : String} (v : α)
    (h : dictMem m k = true) : (dictSet m k v).map Prod.fst = m.map Prod.fst := by
  unfold dictSet
  rw [if_pos h]
  exact overwrite_keys m k v

theorem mem_dictSet {α : Type} {m : List (String × α)} {k : String} {v : α}
    {p : String × α} (h : p ∈ dictSet m k v) : p ∈ m ∨ p = (k, v) := by
  unfold dictSet at h
  by_cases hm : dictMem m k
  · rw [if_pos hm] at h
    obtain ⟨q, hq, hfq⟩ := List.mem_map.mp h
    by_cases hqk : q.1 = k
    · right
      rw [← hfq]
      simp [hqk]
    · left
      rw [← hfq]
      simpa [hqk] using hq
  · rw [if_neg hm] at h
    rcases List.mem_append.mp h with h1 | h2
    · exact Or.inl h1
    · right
      simpa using h2

theorem dictGet_mem {α : Type} {m : List (String × α)} {k : String} {v : α}
    (h : dictGet m k = some v) : (k, v) ∈ m := by
  induction m with
  | nil => simp [dictGet] at h
  | cons hd tl ih =>
    obtain ⟨a, b⟩ := hd
    by_cases ha : a = k
    · rw [dictGet, if_pos ha] at h
      obtain rfl : b = v := by simpa using h
      subst ha
      exact List.mem_cons_self _ _
    · rw [dictGet, if_neg ha] at h
      exact List.mem_cons_of_mem _ (ih h)

theorem dictMem_of_mem {α : Type} {m : List (String × α)} {p : String × α}
    (h : p ∈ m) : dictMem m p.1 = true := by
  induction m with
  | nil => simp at h
  | cons hd tl ih =>
    obtain ⟨a, b⟩ := hd
    rcases List.mem_cons.mp h with rfl | h'
    · simp [dictMem, dictGet]
    · have htl := ih h'
      by_cases ha : a = p.1
      · simp [dictMem, dictGet, ha]
      · unfold dictMem at htl ⊢
        simpa [dictGet, ha] using htl

theorem dictMem_eq_decide {α : Type} (m : List (String × α)) (k : String) :
    dictMem m k = decide (k ∈ m.map Prod.fst) := by
  induction m with
  | nil => simp [dictMem, dictGet]
  | cons hd tl ih =>
    obtain ⟨a, b⟩ := hd
    by_cases ha : a = k
    · simp [dictMem, dictGet, ha]
    · have hka : ¬ k = a := fun he => ha he.symm
      unfold dictMem at ih ⊢
      simp [dictGet, ha, hka, ih]

theorem dictMem_congr_keys {α β : Type} {m1 : List (String × α)} {m2 : List (String × β)}
    (h : m1.map Prod.fst = m2.map Prod.fst) (k : String) :
    dictMem m1 k = dictMem m2 k := by
  rw [dictMem_eq_decide, dictMem_eq_decide, h]

theorem dictGet_of_nodup_mem {α : Type} {m : List (String × α)}
    (hnd : (m.map Prod.fst).Nodup) {p : String × α} (hp : p ∈ m) :
    dictGet m p.1 = some p.2 := by
  induction m with
  | nil => simp at hp
  | cons hd tl ih =>
    rw [List.map_cons, List.nodup_cons] at hnd
    rcases List.mem_cons.mp hp with rfl | hp'
    · simp [dictGet]
    · have ha : hd.1 ≠ p.1 := fun he => hnd.1 (he ▸ List.mem_map_of_mem Prod.fst hp')
      simp [dictGet, ha, ih hnd.2 hp']

theorem dictMem_of_get {α : Type} {m : List (String × α)} {k : String} {v : α}
    (h : dictGet m k = some v) : dictMem m k = true := by
  unfold dictMem
  rw [h]
  rfl

theorem charCoreEq_refl (c : Character) : CharCoreEq c c := ⟨rfl, rfl, rfl⟩

theorem charCoreEq_trans {a b c : Character} (h1 : CharCoreEq a b)
    (h2 : CharCoreEq b c) : CharCoreEq a c :=
  ⟨h2.1.trans h1.1, h2.2.1.trans h1.2.1, h2.2.2.trans h1.2.2⟩

theorem frameStep_refl (w : World) : FrameStep w w := ⟨rfl, rfl⟩

theorem frameStep_trans {w1 w2 w3 : World} (h1 : FrameStep w1 w2)
    (h2 : FrameStep w2 w3) : FrameStep w1 w3 :=
  ⟨h2.1.trans h1.1, h2.2.trans h1.2⟩

theorem coreStep_refl (w : World) : CoreStep w w :=
  ⟨frameStep_refl w, fun _ c h => ⟨c, h, charCoreEq_refl c⟩⟩

theorem coreStep_trans {w1 w2 w3 : World} (h1 : CoreStep w1 w2)
    (h2 : CoreStep w2 w3) : CoreStep w1 w3 := by
  refine ⟨frameStep_trans h1.1 h2.1, fun n c h => ?_⟩
  obtain ⟨c2, hg2, he2⟩ := h1.2 n c h
  obtain ⟨c3, hg3, he3⟩ := h2.2 n c2 hg2
  exact ⟨c3, hg3, charCoreEq_trans he2 he3⟩

theorem add_memory_cases (env : Env) (w : World) (cname msg : String) (u : Bool) :
    ∃ ms : List MemoryRecord, add_memory env w cname msg u = { w with memories := ms } := by
  unfold add_memory
  by_cases h : stripStr (env.extract msg) = "\"\""
  · exact ⟨w.memories, by simp [h]⟩
  · exact ⟨w.memories ++ [⟨cname, stripStr (env.extract msg), u⟩], by simp [h]⟩

theorem add_memory_of_ne (env : Env) (w : World) (cname msg : String) (u : Bool)
    (h : stripStr (env.extract msg) ≠ "\"\"") :
    add_memory env w cname msg u =
      { w with memories := w.memories ++ [⟨cname, stripStr (env.extract msg), u⟩] } := by
  unfold add_memory
  simp [h]

theorem add_memory_characters (env : Env) (w : World) (cname msg : String) (u : Bool) :
    (add_memory env w cname msg u).characters = w.characters := by
  obtain ⟨ms, hm⟩ := add_memory_cases env w cname msg u
  rw [hm]

theorem add_memory_date (env : Env) (w : World) (cname msg : String) (u : Bool) :
    (add_memory env w cname msg u).current_date = w.current_date := by
  obtain ⟨ms, hm⟩ := add_memory_cases env w cname msg u
  rw [hm]

theorem coreStep_add_memory (env : Env) (w : World) (cname msg : String) (u : Bool) :
    CoreStep w (add_memory env w cname msg u) := by
  obtain ⟨ms, hm⟩ := add_memory_cases env w cname msg u
  rw [hm]
  exact ⟨⟨rfl, rfl⟩, fun _ c h => ⟨c, h, charCoreEq_refl c⟩⟩

theorem coreStep_add_task_done (env : Env) (w : World) (cname task : String) :
    CoreStep w (add_task_done env w cname task) := by
  unfold add_task_done
  exact coreStep_add_memory env w cname _ false

theorem coreStep_setChar (w : World) (a : String) (c c' : Character)
    (hget : dictGet w.characters a = some c) (hcore : CharCoreEq c c') :
    CoreStep w { w with characters := dictSet w.characters a c' } := by
  refine ⟨⟨rfl, dictSet_keys_of_mem c' (dictMem_of_get hget)⟩, fun n c0 hn => ?_⟩
  by_cases hna : a = n
  · subst hna
    rw [hget] at hn
    obtain rfl : c = c0 := by injection hn
    refine ⟨c', ?_, hcore⟩
    show dictGet (dictSet w.characters a c') a = some c'
    rw [dictGet_set_self]
  · refine ⟨c0, ?_, charCoreEq_refl c0⟩
    show dictGet (dictSet w.characters a c') n = some c0
    rw [dictGet_set_ne w.characters c' hna]
    exact hn

theorem update_friendship_none (env : Env) (w : World) (a b : String) (q : ℚ)
    (h : dictGet w.characters a = none) : update_friendship env w a b q = w := by
  simp only [update_friendship, h]

theorem update_friendship_self (env : Env) (w : World) (a : String) (q : ℚ)
    (c : Character) (hget : dictGet w.characters a = some c) :
    update_friendship env w a c.character_name q = w := by
  simp only [update_friendship, hget]
  rw [if_neg (fun h => h rfl)]

theorem update_friendship_eq (env : Env) (w : World) (a b : String) (q : ℚ)
    (c : Character) (hget : dictGet w.characters a = some c)
    (hb : b ≠ c.character_name) :
    update_friendship env w a b q =
      add_memory env { w with characters := dictSet w.characters a { c with friends := dictSet c.friends b (max 0 (min 1 ((dictGet c.friends b).getD 0 + q))) } } a (friendshipText b (max 0 (min 1 ((dictGet c.friends b).getD 0 + q)))) false := by
  simp only [update_friendship, hget, if_pos hb]

theorem coreStep_update_friendship (env : Env) (w : World) (a b : String) (q : ℚ) :
    CoreStep w (update_friendship env w a b q) := by
  cases hget : dictGet w.characters a with
  | none => rw [update_friendship_none env w a b q hget]; exact coreStep_refl w
  | some c =>
    by_cases hb : b ≠ c.character_name
    · rw [update_friendship_eq env w a b q c hget hb]
      refine coreStep_trans ?_ (coreStep_add_memory env _ a _ false)
      exact coreStep_setChar w a c _ hget ⟨rfl, rfl, rfl⟩
    · have hb' : b = c.character_name := not_not.mp hb
      subst hb'
      rw [update_friendship_self env w a q c hget]
      exact coreStep_refl w

theorem coreStep_foldl {β : Type} (F : World → β → World)
    (H : ∀ w b, CoreStep w (F w b)) :
    ∀ (L : List β) (w : World), CoreStep w (L.foldl F w) := by
  intro L
  induction L with
  | nil => intro w; exact coreStep_refl w
  | cons b tl ih => intro w; exact coreStep_trans (H w b) (ih (F w b))

theorem frameStep_foldl {β : Type} (F : World → β → World)
    (H : ∀ w b, FrameStep w (F w b)) :
    ∀ (L : List β) (w : World), FrameStep w (L.foldl F w) := by
  intro L
  induction L with
  | nil => intro w; exact frameStep_refl w
  | cons b tl ih => intro w; exact frameStep_trans (H w b) (ih (F w b))

theorem coreStep_birthdayFriendStep (env : Env) (cname cbname : String) (age : ℤ)
    (w : World) (p : String × ℚ) :
    CoreStep w (birthdayFriendStep env cname cbname age w p) := by
  cases hget : dictGet w.characters p.1 with
  | none => simp only [birthdayFriendStep, hget]; exact coreStep_refl w
  | some fc =>
    simp only [birthdayFriendStep, hget]
    refine coreStep_trans ?_ (coreStep_update_friendship env _ p.1 cbname _)
    refine coreStep_trans ?_ (coreStep_update_friendship env _ cname p.1 _)
    refine coreStep_trans ?_ (coreStep_add_task_done env _ p.1 _)
    exact coreStep_add_memory env w p.1 _ false

theorem coreStep_celebrate (env : Env) (cname : String) (w : World) :
    CoreStep w (celebrate_birthday env w cname) := by
  cases hget : dictGet w.characters cname with
  | none => simp only [celebrate_birthday, hget]; exact coreStep_refl w
  | some c =>
    simp only [celebrate_birthday, hget]
    refine coreStep_trans ?_
      (coreStep_foldl _ (fun wa t => coreStep_add_task_done env wa cname t) _ _)
    refine coreStep_trans ?_
      (coreStep_foldl _ (coreStep_birthdayFriendStep env cname c.character_name (get_age w c))
        c.friends _)
    exact coreStep_add_memory env w cname _ false

theorem frameStep_update_daily (env : Env) (cname : String) (w : World) :
    FrameStep w (update_daily env w cname) := by
  cases hget : dictGet w.characters cname with
  | none => simp only [update_daily, hget]; exact frameStep_refl w
  | some c0 =>
    simp only [update_daily, hget]
    refine frameStep_trans ?_ (coreStep_add_memory env _ cname _ false).1
    have h1 : CoreStep w (if is_birthday w c0 then celebrate_birthday env w cname else w) := by
      split
      · exact coreStep_celebrate env cname w
      · exact coreStep_refl w
    refine frameStep_trans h1.1 ?_
    generalize (if is_birthday w c0 then celebrate_birthday env w cname else w) = w1
    cases hg1 : dictGet w1.characters cname with
    | none => exact frameStep_refl w1
    | some c1 =>
      show FrameStep w1 (if (c1.is_jet_lagged && jetLagDue w1 c1) = true then add_memory env { w1 with characters := dictSet w1.characters cname { c1 with is_jet_lagged := false } } cname "Recovered from jet lag." false else w1)
      by_cases hjl : (c1.is_jet_lagged && jetLagDue w1 c1) = true
      · rw [if_pos hjl]
        refine frameStep_trans ?_ (coreStep_add_memory env _ cname _ false).1
        exact ⟨rfl, dictSet_keys_of_mem _ (dictMem_of_get hg1)⟩
      · rw [if_neg hjl]
        exact frameStep_refl w1

theorem dayStep_date_keys (env : Env) (w : World) :
    (dayStep env w).current_date = nextDay w.current_date ∧
      (dayStep env w).characters.map Prod.fst = w.characters.map Prod.fst := by
  have hf := frameStep_foldl (update_daily env)
    (fun wa n => frameStep_update_daily env n wa)
    ((trigger_events (update_weather env
        { w with current_date := nextDay w.current_date })).characters.map Prod.fst)
    (trigger_events (update_weather env { w with current_date := nextDay w.current_date }))
  simp only [dayStep]
  exact ⟨hf.1, hf.2⟩

theorem advance_time_iterate (env : Env) (days : ℕ) :
    ∀ w : World, advance_time env days w = (dayStep env)^[days] w := by
  induction days with
  | zero => intro w; rfl
  | succ n ih =>
    intro w
    show advance_time env n (dayStep env w) = _
    rw [ih (dayStep env w), Function.iterate_succ_apply]

theorem advance_time_date (env : Env) (days : ℕ) :
    ∀ w : World, (advance_time env days w).current_date = nextDay^[days] w.current_date := by
  induction days with
  | zero => intro w; rfl
  | succ n ih =>
    intro w
    show (advance_time env n (dayStep env w)).current_date = _
    rw [ih (dayStep env w), (dayStep_date_keys env w).1, Function.iterate_succ_apply]

theorem advance_time_keys (env : Env) (days : ℕ) :
    ∀ w : World,
      (advance_time env days w).characters.map Prod.fst = w.characters.map Prod.fst := by
  induction days with
  | zero => intro w; rfl
  | succ n ih =>
    intro w
    show (advance_time env n (dayStep env w)).characters.map Prod.fst = _
    rw [ih (dayStep env w), (dayStep_date_keys env w).2]

theorem rerollList_getElem? (env : Env) :
    ∀ (L : List Location) (s i : ℕ) (loc : Location), L[i]? = some loc →
      (rerollList env s L)[i]? =
        some { loc with weather := weatherOf (env.randWeather (s + i)) } := by
  intro L
  induction L with
  | nil => intro s i loc h; simp at h
  | cons hd tl ih =>
    intro s i loc h
    cases i with
    | zero =>
      obtain rfl : hd = loc := by simpa using h
      simp [rerollList]
    | succ n =>
      rw [List.getElem?_cons_succ] at h
      have harith : s + (n + 1) = (s + 1) + n := by omega
      rw [show rerollList env s (hd :: tl) =
        { hd with weather := weatherOf (env.randWeather s) } :: rerollList env (s + 1) tl from rfl,
        List.getElem?_cons_succ, harith]
      exact ih (s + 1) n loc h

theorem rerollList_length (env : Env) :
    ∀ (s : ℕ) (L : List Location), (rerollList env s L).length = L.length := by
  intro s L
  induction L generalizing s with
  | nil => rfl
  | cons hd tl ih => simp [rerollList, ih]

theorem develop_skill_skills_mem {c : Character} {s : String} {q : ℚ}
    {p : String × ℚ} (hp : p ∈ (develop_skill c s q).skills) :
    p ∈ c.skills ∨ p = (s, 0) ∨
      ∃ cur, p = (s, min 1 (cur + q)) ∧
        (cur = 0 ∨ (s, cur) ∈ c.skills ∨ cur = 0 ∧ True) ∧ (cur = 0 ∨ (s, cur) ∈ c.skills) := by
  by_cases hm : dictMem c.skills s
  · simp only [develop_skill, if_pos hm] at hp
    rcases mem_dictSet hp with h1 | h1
    · exact Or.inl h1
    · refine Or.inr (Or.inr ⟨(dictGet c.skills s).getD 0, by rw [h1], ?_, ?_⟩)
      · cases hg : dictGet c.skills s
        · exact Or.inl (by simp [hg])
        · exact Or.inr (Or.inl (by simpa [hg] using dictGet_mem hg))
      · cases hg : dictGet c.skills s
        · exact Or.inl (by simp [hg])
        · exact Or.inr (by simpa [hg] using dictGet_mem hg)
  · have hnone : dictGet c.skills s = none := dictMem_false_get (by simpa using hm)
    simp only [develop_skill, if_neg hm] at hp
    rcases mem_dictSet hp with h1 | h1
    · rcases mem_dictSet h1 with h2 | h2
      · exact Or.inl h2
      · exact Or.inr (Or.inl h2)
    · refine Or.inr (Or.inr ⟨0, ?_, Or.inl rfl, Or.inl rfl⟩)
      rw [h1]
      rw [dictGet_set_self]
      rfl

theorem develop_skill_le_one {c : Character} (h : ∀ p ∈ c.skills, p.2 ≤ 1)
    (s : String) (q : ℚ) : ∀ p ∈ (develop_skill c s q).skills, p.2 ≤ 1 := by
  intro p hp
  rcases develop_skill_skills_mem hp with h1 | h1 | ⟨cur, rfl, _, _⟩
  · exact h p h1
  · rw [h1]
    exact zero_le_one
  · exact min_le_left 1 _

theorem develop_skill_range {c : Character}
    (h : ∀ p ∈ c.skills, 0 ≤ p.2 ∧ p.2 ≤ 1) {q : ℚ} (hq : 0 ≤ q) (s : String) :
    ∀ p ∈ (develop_skill c s q).skills, 0 ≤ p.2 ∧ p.2 ≤ 1 := by
  intro p hp
  rcases develop_skill_skills_mem hp with h1 | h1 | ⟨cur, rfl, _, hcur⟩
  · exact h p h1
  · rw [h1]
    exact ⟨le_refl 0, zero_le_one⟩
  · have hcur0 : 0 ≤ cur := by
      rcases hcur with rfl | hmem
      · exact le_refl 0
      · exact (h _ hmem).1
    exact ⟨le_min zero_le_one (add_nonneg hcur0 hq), min_le_left 1 _⟩

theorem applySkillOps_cons (c : Character) (op : String × ℚ) (tl : List (String × ℚ)) :
    applySkillOps c (op :: tl) = applySkillOps (develop_skill c op.1 op.2) tl := rfl

theorem applySkillOps_le_one {ops : List (String × ℚ)} :
    ∀ {c : Character}, (∀ p ∈ c.skills, p.2 ≤ 1) →
      ∀ p ∈ (applySkillOps c ops).skills, p.2 ≤ 1 := by
  induction ops with
  | nil => intro c h; exact h
  | cons op tl ih =>
    intro c h
    rw [applySkillOps_cons]
    exact ih (develop_skill_le_one h op.1 op.2)

theorem applySkillOps_range {ops : List (String × ℚ)} (hops : ∀ op ∈ ops, 0 ≤ op.2) :
    ∀ {c : Character}, (∀ p ∈ c.skills, 0 ≤ p.2 ∧ p.2 ≤ 1) →
      ∀ p ∈ (applySkillOps c ops).skills, 0 ≤ p.2 ∧ p.2 ≤ 1 := by
  induction ops with
  | nil => intro c h; exact h
  | cons op tl ih =>
    intro c h
    rw [applySkillOps_cons]
    exact ih (fun o ho => hops o (List.mem_cons_of_mem op ho))
      (develop_skill_range h (hops op (List.mem_cons_self op tl)) op.1)

/-- Claim C1: `advance_time(days)` performs exactly `days` iterations; each
iteration advances the calendar by exactly one day, re-rolls every
location's weather with an independent fresh draw over the 4-value enum
(uniformity is that of the modelled `random.choice` draw), and runs every
registered character's `update_daily` once, in registry order (the
`dayStep` equation); `advance_time 3` lands on D+3 and `advance_time 0` is
a no-op. -/
theorem c1_advance_time_spec (env : Env) (w : World) (days : ℕ) :
    advance_time env 0 w = w ∧
    advance_time env days w = (dayStep env)^[days] w ∧
    (dayStep env w = ((trigger_events (update_weather env { w with current_date := nextDay w.current_date })).characters.map Prod.fst).foldl (update_daily env) (trigger_events (update_weather env { w with current_date := nextDay w.current_date }))) ∧
    (advance_time env days w).current_date = nextDay^[days] w.current_date ∧
    (advance_time env 3 w).current_date = nextDay (nextDay (nextDay w.current_date)) ∧
    (advance_time env days w).characters.map Prod.fst = w.characters.map Prod.fst ∧
    (update_weather env w).locations.length = w.locations.length ∧
    (∀ (i : ℕ) (loc : Location), w.locations[i]? = some loc →
      (update_weather env w).locations[i]? =
        some { loc with weather := weatherOf (env.randWeather (w.rng + i)) }) := by
  refine ⟨rfl, advance_time_iterate env days w, rfl, advance_time_date env days w, ?_,
    advance_time_keys env days w, ?_, ?_⟩
  · rw [advance_time_date env 3 w]
    rfl
  · show (rerollList env w.rng w.locations).length = w.locations.length
    exact rerollList_length env w.rng w.locations
  · intro i loc h
    show (rerollList env w.rng w.locations)[i]? = _
    exact rerollList_getElem? env w.locations w.rng i loc h

/-- Claim C1 witness: a concrete world with one location, advanced by three
days. -/
theorem c1_witness :
    (advance_time envA 3 w1w).current_date = nextDay (nextDay (nextDay w1w.current_date)) ∧
    (update_weather envA w1w).locations[0]? =
      some { loc0 with weather := weatherOf (envA.randWeather (w1w.rng + 0)) } := by
  refine ⟨(c1_advance_time_spec envA w1w 3).2.2.2.2.1, ?_⟩
  exact (c1_advance_time_spec envA w1w 3).2.2.2.2.2.2.2 0 loc0 (by rfl)

/-- Claim C3 counterexample: `develop_skill` with a negative increment
leaves the skill level below 0 (the code clamps only at 1.0 from above),
so the resulting level is not in [0, 1]. -/
theorem c3_counterexample :
    dictGet (develop_skill (charNamed "S") "cooking" (-1)).skills "cooking" =
      some (-1 : ℚ) ∧ ¬ ((0 : ℚ) ≤ -1 ∧ (-1 : ℚ) ≤ 1) := by
  constructor
  · have hmin : min (1 : ℚ) (0 + -1) = -1 := by
      rw [min_eq_right (by norm_num)]
      norm_num
    simp [charNamed, mkCharacter, develop_skill, dictMem, dictGet, dictSet, hmin]
  · norm_num

/-- Claim C3 amended: a `develop_skill` call stores exactly
`min 1 (current + increase)`; hence levels never exceed 1 after any call
sequence, and they stay within [0, 1] for any sequence of nonnegative
increments — but a negative increment may drive a level below 0 (only the
upper boundary saturates; no call ever fails). -/
theorem c3_amended_skill_clamp (c : Character) (ops : List (String × ℚ))
    (s : String) (q : ℚ) :
    (dictGet (develop_skill c s q).skills s =
      some (min 1 ((dictGet c.skills s).getD 0 + q))) ∧
    ((∀ p ∈ c.skills, p.2 ≤ 1) → ∀ p ∈ (applySkillOps c ops).skills, p.2 ≤ 1) ∧
    ((∀ p ∈ c.skills, 0 ≤ p.2 ∧ p.2 ≤ 1) → (∀ op ∈ ops, 0 ≤ op.2) →
      ∀ p ∈ (applySkillOps c ops).skills, 0 ≤ p.2 ∧ p.2 ≤ 1) := by
  refine ⟨?_, fun h => applySkillOps_le_one h, fun h hops => applySkillOps_range hops h⟩
  by_cases hm : dictMem c.skills s
  · simp only [develop_skill, if_pos hm]
    rw [dictGet_set_self]
  · have hnone : dictGet c.skills s = none := dictMem_false_get (by simpa using hm)
    simp only [develop_skill, if_neg hm]
    rw [dictGet_set_self, hnone]
    rw [dictGet_set_self]
    rfl

/-- Claim C3 witness: a nonnegative development sequence stays in range and
a saturating increment lands exactly on 1. -/
theorem c3_witness :
    dictGet (applySkillOps (charNamed "S") [("art", 2)]).skills "art" = some 1 ∧
      (0 : ℚ) ≤ 1 ∧ (1 : ℚ) ≤ 1 := by
  have hmin : min (1 : ℚ) (0 + 2) = 1 := by
    rw [min_eq_left (by norm_num)]
  have happ : (applySkillOps (charNamed "S") [("art", 2)]).skills = [("art", (1 : ℚ))] := by
    simp [applySkillOps, develop_skill, charNamed, mkCharacter, dictMem, dictGet, dictSet, hmin]
  have h := (c3_amended_skill_clamp (charNamed "S") [("art", 2)] "x" 0).2.2
    (by intro p hp; simp [charNamed, mkCharacter] at hp)
    (by intro op hop; rw [List.mem_singleton] at hop; subst hop; norm_num)
  refine ⟨by rw [happ]; simp [dictGet], ?_⟩
  exact h ("art", 1) (by rw [happ]; exact List.mem_singleton.mpr rfl)

/-- Claim C6: birthday detection compares exactly (month, day) and is
independent of the year; the age is the year difference, decremented by one
exactly when (month, day) has not yet been reached; date of birth
1990-05-15 gives age 33 on 2024-05-14 and 34 on 2024-05-15. -/
theorem c6_birthday_age (w w' : World) (c : Character) :
    (is_birthday w c = true ↔
      (w.current_date.month = c.date_of_birth.month ∧
        w.current_date.day = c.date_of_birth.day)) ∧
    (w.current_date.month = w'.current_date.month →
      w.current_date.day = w'.current_date.day →
      is_birthday w c = is_birthday w' c) ∧
    (get_age w c = (w.current_date.year : ℤ) - (c.date_of_birth.year : ℤ) -
      (if pairLt (w.current_date.month, w.current_date.day)
        (c.date_of_birth.month, c.date_of_birth.day) then 1 else 0)) ∧
    get_age wMay14 aliceC = 33 ∧ get_age wMay15 aliceC = 34 ∧
    is_birthday wMay15 aliceC = true ∧ is_birthday wMay14 aliceC = false := by
  refine ⟨?_, ?_, rfl, by decide, by decide, by decide, by decide⟩
  · simp [is_birthday]
  · intro h1 h2
    simp [is_birthday, h1, h2]

/-- Claim C6 witness: the year-independence branch applied at two worlds
whose dates share (month, day) but sit 25 years apart. -/
theorem c6_witness :
    is_birthday wMay15 aliceC = is_birthday wMay15b aliceC ∧
      get_age wMay14 aliceC = 33 := by
  refine ⟨(c6_birthday_age wMay15 wMay15b aliceC).2.1 (by decide) (by decide), ?_⟩
  exact (c6_birthday_age wMay14 wMay14 aliceC).2.2.2.1

/-- Claim C8: `summarize_message` routes a message through the external
summarization exactly when its length exceeds 100 characters and returns it
verbatim at length at most 100; a 101-character message is summarized and a
100-character message is kept verbatim. -/
theorem c8_summarize_threshold (env : Env) (m : String) :
    (m.length ≤ 100 → summarize_message env m = m) ∧
    (100 < m.length → summarize_message env m = stripStr (env.summarize m)) ∧
    (msg100.length = 100 ∧ summarize_message env msg100 = msg100) ∧
    (msg101.length = 101 ∧ summarize_message env msg101 = stripStr (env.summarize msg101)) := by
  refine ⟨?_, ?_, ⟨by decide, ?_⟩, ⟨by decide, ?_⟩⟩
  · intro h
    unfold summarize_message
    rw [if_pos h]
  · intro h
    unfold summarize_message
    rw [if_neg (by omega)]
  · unfold summarize_message
    rw [if_pos (by decide)]
  · unfold summarize_message
    rw [if_neg (by decide)]

/-- Claim C8 witness: a short message is returned verbatim and the
101-character message goes through the summarization oracle. -/
theorem c8_witness :
    summarize_message envA "hi" = "hi" ∧
      summarize_message envA msg101 = stripStr (envA.summarize msg101) := by
  refine ⟨(c8_summarize_threshold envA "hi").1 (by decide), ?_⟩
  exact (c8_summarize_threshold envA msg101).2.2.2.2

/-- Claim C9: `move_to_location` with a location name that matches no entry
of the world's location list leaves the whole world state unchanged — no
field of the character is touched, no memory is recorded, nothing is
raised. -/
theorem c9_move_unknown_noop (env : Env) (w : World) (cname location_name : String)
    (h : ∀ loc ∈ w.locations, loc.name ≠ location_name) :
    move_to_location env w cname location_name = w := by
  cases hget : dictGet w.characters cname with
  | none => simp only [move_to_location, hget]
  | some c =>
    have hfind : w.locations.find? (fun loc => decide (loc.name = location_name)) = none := by
      rw [List.find?_eq_none]
      intro loc hloc
      simp [h loc hloc]
    simp only [move_to_location, hget, hfind]

/-- Claim C9 witness: moving to a nonexistent location in a concrete world
changes nothing. -/
theorem c9_witness : move_to_location envA wJet "Z" "Atlantis" = wJet :=
  c9_move_unknown_noop envA wJet "Z" "Atlantis" (by decide)

theorem friendsInRange_update (env : Env) (w : World) (a b : String) (q : ℚ)
    (h : friendsInRange w) : friendsInRange (update_friendship env w a b q) := by
  cases hget : dictGet w.characters a with
  | none =>
    rw [update_friendship_none env w a b q hget]
    exact h
  | some c =>
    by_cases hb : b ≠ c.character_name
    · rw [update_friendship_eq env w a b q c hget hb]
      intro p hp
      rw [add_memory_characters] at hp
      rcases mem_dictSet hp with h1 | h1
      · exact h p h1
      · subst h1
        intro entry hentry
        rcases mem_dictSet hentry with he1 | he1
        · exact h (a, c) (dictGet_mem hget) entry he1
        · subst he1
          exact ⟨le_max_left 0 _, max_le zero_le_one (min_le_left 1 _)⟩
    · have hb' : b = c.character_name := not_not.mp hb
      subst hb'
      rw [update_friendship_self env w a q c hget]
      exact h

theorem applyFriendshipOps_cons (env : Env) (w : World) (op : String × String × ℚ)
    (tl : List (String × String × ℚ)) :
    applyFriendshipOps env w (op :: tl) =
      applyFriendshipOps env (update_friendship env w op.1 op.2.1 op.2.2) tl := rfl

theorem applyFriendshipOps_range (env : Env) (ops : List (String × String × ℚ)) :
    ∀ w : World, friendsInRange w → friendsInRange (applyFriendshipOps env w ops) := by
  induction ops with
  | nil => intro w h; exact h
  | cons op tl ih =>
    intro w h
    rw [applyFriendshipOps_cons]
    exact ih _ (friendsInRange_update env w op.1 op.2.1 op.2.2 h)

/-- Claim C4: every `update_friendship` call stores exactly
`max 0 (min 1 (current + change))`, so every entry of every friendship map
stays in [0, 1] across any finite sequence of calls with arbitrary deltas
— saturating, never failing. -/
theorem c4_friendship_clamped (env : Env) (w : World)
    (ops : List (String × String × ℚ)) (h : friendsInRange w) :
    friendsInRange (applyFriendshipOps env w ops) ∧
    (∀ (a b : String) (q : ℚ) (c : Character), dictGet w.characters a = some c →
      b ≠ c.character_name →
      ∃ c', dictGet (update_friendship env w a b q).characters a = some c' ∧
        dictGet c'.friends b = some (max 0 (min 1 ((dictGet c.friends b).getD 0 + q)))) := by
  refine ⟨applyFriendshipOps_range env ops w h, ?_⟩
  intro a b q c hget hb
  rw [update_friendship_eq env w a b q c hget hb]
  refine ⟨{ c with friends := dictSet c.friends b (max 0 (min 1 ((dictGet c.friends b).getD 0 + q))) }, ?_, by rw [dictGet_set_self]⟩
  rw [add_memory_characters]
  exact dictGet_set_self w.characters a _

/-- Claim C4 witness: a clamped overshoot (+3 lands on 1) and an
undershoot (−2 lands on 0) starting from the asymmetric world. -/
theorem c4_witness :
    friendsInRange (applyFriendshipOps envA w5 [("A", "B", 3), ("B", "A", -2)]) := by
  have hrange : friendsInRange w5 := by
    intro p hp
    simp [w5, baseWorld] at hp
    rcases hp with rfl | rfl
    · intro entry hentry
      simp [charA5, charNamed, mkCharacter] at hentry
      subst hentry
      norm_num
    · intro entry hentry
      simp [charB5, charNamed, mkCharacter] at hentry
      subst hentry
      norm_num
  exact (c4_friendship_clamped envA w5 [("A", "B", 3), ("B", "A", -2)] hrange).1

/-- Claim C2: an executed move sets the jet-lag flag exactly when the
absolute offset difference is at least 5 hours, with recovery delay
`min (diff / 2) 7` and recovery date `current + delay`; the daily update
then clears the flag exactly when the current date has reached the
recovery date (inclusive). -/
theorem c2_jet_lag_spec (env : Env) (w : World) (cname locname : String)
    (c : Character) (loc : Location)
    (hc : dictGet w.characters cname = some c)
    (hloc : w.locations.find? (fun l => decide (l.name = locname)) = some loc) :
    (5 ≤ (loc.timezone - c.timezone).natAbs →
      ∃ c', dictGet (move_to_location env w cname locname).characters cname = some c' ∧
        c'.is_jet_lagged = true ∧
        c'.jet_lag_recovery_date =
          some (addDays (min ((loc.timezone - c.timezone).natAbs / 2) 7) w.current_date)) ∧
    ((loc.timezone - c.timezone).natAbs < 5 →
      ∃ c', dictGet (move_to_location env w cname locname).characters cname = some c' ∧
        c'.is_jet_lagged = c.is_jet_lagged ∧
        c'.jet_lag_recovery_date = c.jet_lag_recovery_date) ∧
    (∀ r : Date, c.is_jet_lagged = true → c.jet_lag_recovery_date = some r →
      ∃ c', dictGet (update_daily env w cname).characters cname = some c' ∧
        c'.is_jet_lagged = !(dateLe r w.current_date)) := by
  refine ⟨?_, ?_, ?_⟩
  · intro hd
    simp only [move_to_location, hc, hloc]
    rw [if_pos hd]
    refine ⟨{ c with location := locname, timezone := loc.timezone, is_jet_lagged := true, jet_lag_recovery_date := some (addDays (min ((loc.timezone - c.timezone).natAbs / 2) 7) w.current_date) }, ?_, rfl, rfl⟩
    rw [add_memory_characters]
    exact dictGet_set_self _ cname _
  · intro hd
    simp only [move_to_location, hc, hloc]
    rw [if_neg (by omega)]
    refine ⟨{ c with location := locname, timezone := loc.timezone }, ?_, rfl, rfl⟩
    rw [add_memory_characters]
    exact dictGet_set_self _ cname _
  · intro r hflag hrec
    simp only [update_daily, hc]
    have h1 : CoreStep w (if is_birthday w c then celebrate_birthday env w cname else w) := by
      split
      · exact coreStep_celebrate env cname w
      · exact coreStep_refl w
    set w1 := if is_birthday w c then celebrate_birthday env w cname else w with hw1
    obtain ⟨c1, hg1, hn1, hf1, hr1⟩ := h1.2 cname c hc
    simp only [hg1]
    have hflag1 : c1.is_jet_lagged = true := hf1.trans hflag
    have hdue : jetLagDue w1 c1 = dateLe r w.current_date := by
      simp only [jetLagDue, hr1, hrec]
      rw [h1.1.1]
    cases hb : dateLe r w.current_date with
    | false =>
      have hcond : (c1.is_jet_lagged && jetLagDue w1 c1) = false := by
        rw [hflag1, hdue, hb, Bool.true_and]
      rw [hcond, if_neg (by simp)]
      refine ⟨c1, ?_, ?_⟩
      · rw [add_memory_characters]
        exact hg1
      · rw [hflag1]
        rfl
    | true =>
      have hcond : (c1.is_jet_lagged && jetLagDue w1 c1) = true := by
        rw [hflag1, hdue, hb, Bool.true_and]
      rw [hcond, if_pos rfl]
      refine ⟨{ c1 with is_jet_lagged := false }, ?_, rfl⟩
      rw [add_memory_characters, add_memory_characters]
      exact dictGet_set_self w1.characters cname _

/-- Claim C2 witness: a 0→9 move sets the flag with delay 4, a 0→18 move
caps the delay at 7, and a recovery date already reached is cleared by the
daily update. -/
theorem c2_witness :
    (dictGet (move_to_location envA wJet "Z" "L9").characters "Z").map Character.is_jet_lagged = some true ∧
    (dictGet (move_to_location envA wJet "Z" "L9").characters "Z").map Character.jet_lag_recovery_date = some (some (addDays 4 wJet.current_date)) ∧
    (dictGet (move_to_location envA wJet "Z" "L18").characters "Z").map Character.jet_lag_recovery_date = some (some (addDays 7 wJet.current_date)) ∧
    (dictGet (update_daily envA wJet2 "Z").characters "Z").map Character.is_jet_lagged = some false := by
  obtain ⟨c9, hg9, hf9, hr9⟩ :=
    (c2_jet_lag_spec envA wJet "Z" "L9" charZ locL9 rfl rfl).1 (by decide)
  obtain ⟨c18, hg18, hf18, hr18⟩ :=
    (c2_jet_lag_spec envA wJet "Z" "L18" charZ locL18 rfl rfl).1 (by decide)
  obtain ⟨cz, hgz, hfz⟩ :=
    (c2_jet_lag_spec envA wJet2 "Z" "L9" charZlag locL9 rfl rfl).2.2 ⟨2024, 5, 10⟩ rfl rfl
  refine ⟨?_, ?_, ?_, ?_⟩
  · rw [hg9, Option.map_some', hf9]
  · rw [hg9, Option.map_some', hr9]
    decide
  · rw [hg18, Option.map_some', hr18]
    decide
  · rw [hgz, Option.map_some', hfz]
    decide

theorem birthdayFriendStep_eq (env : Env) (cn : String) (age : ℤ) (w : World)
    (g : String) (lv : ℚ) (c fc : Character)
    (hc : dictGet w.characters cn = some c)
    (hg : dictGet w.characters g = some fc)
    (hnames : namesConsistent w)
    (hgcn : g ≠ cn)
    (hsnap : dictGet c.friends g = some lv) :
    ∃ ms : List MemoryRecord,
      birthdayFriendStep env cn cn age w (g, lv) =
        { w with
          characters := dictSet (dictSet w.characters cn { c with friends := dictSet c.friends g (max 0 (min 1 (lv + 0.05 * lv))) }) g { fc with friends := dictSet fc.friends cn (max 0 (min 1 ((dictGet fc.friends cn).getD 0 + 0.05 * lv))) },
          memories := ms } := by
  have hcn : c.character_name = cn := hnames (cn, c) (dictGet_mem hc)
  have hfcn : fc.character_name = g := hnames (g, fc) (dictGet_mem hg)
  have hgc : g ≠ c.character_name := fun he => hgcn (he.trans hcn)
  have hcnfc : cn ≠ fc.character_name := fun he => hgcn ((he.trans hfcn).symm)
  have hgetd : (dictGet c.friends g).getD 0 = lv := by rw [hsnap]; rfl
  simp only [birthdayFriendStep, hg]
  obtain ⟨ms1, hm1⟩ := add_memory_cases env w g
    ("It's " ++ cn ++ "'s " ++ toString age ++ "th birthday today!") false
  rw [hm1]
  have hW2 : ∃ ms2 : List MemoryRecord,
      add_task_done env { w with memories := ms1 } g ("Wished " ++ cn ++ " a happy birthday") =
        { w with memories := ms2 } := by
    unfold add_task_done
    obtain ⟨ms2, hm2⟩ := add_memory_cases env { w with memories := ms1 } g
      ("Task completed: " ++ ("Wished " ++ cn ++ " a happy birthday")) false
    exact ⟨ms2, by rw [hm2]⟩
  obtain ⟨ms2, hm2⟩ := hW2
  rw [hm2]
  have hcW2 : dictGet ({ w with memories := ms2 } : World).characters cn = some c := hc
  rw [update_friendship_eq env _ cn g (0.05 * lv) c hcW2 hgc]
  rw [hgetd]
  obtain ⟨ms3, hm3⟩ := add_memory_cases env
    { w with characters := dictSet w.characters cn { c with friends := dictSet c.friends g (max 0 (min 1 (lv + 0.05 * lv))) }, memories := ms2 } cn
    (friendshipText g (max 0 (min 1 (lv + 0.05 * lv)))) false
  rw [show ({ ({ w with memories := ms2 } : World) with characters := dictSet ({ w with memories := ms2 } : World).characters cn { c with friends := dictSet c.friends g (max 0 (min 1 (lv + 0.05 * lv))) } } : World) = { w with characters := dictSet w.characters cn { c with friends := dictSet c.friends g (max 0 (min 1 (lv + 0.05 * lv))) }, memories := ms2 } from rfl, hm3]
  have hfcW3 : dictGet ({ w with characters := dictSet w.characters cn { c with friends := dictSet c.friends g (max 0 (min 1 (lv + 0.05 * lv))) }, memories := ms3 } : World).characters g = some fc := by
    show dictGet (dictSet w.characters cn { c with friends := dictSet c.friends g (max 0 (min 1 (lv + 0.05 * lv))) }) g = some fc
    rw [dictGet_set_ne _ _ (Ne.symm hgcn)]
    exact hg
  rw [update_friendship_eq env _ g cn (0.05 * lv) fc hfcW3 hcnfc]
  obtain ⟨ms4, hm4⟩ := add_memory_cases env
    { w with characters := dictSet (dictSet w.characters cn { c with friends := dictSet c.friends g (max 0 (min 1 (lv + 0.05 * lv))) }) g { fc with friends := dictSet fc.friends cn (max 0 (min 1 ((dictGet fc.friends cn).getD 0 + 0.05 * lv))) }, memories := ms3 } g
    (friendshipText cn (max 0 (min 1 ((dictGet fc.friends cn).getD 0 + 0.05 * lv)))) false
  rw [show ({ ({ w with characters := dictSet w.characters cn { c with friends := dictSet c.friends g (max 0 (min 1 (lv + 0.05 * lv))) }, memories := ms3 } : World) with characters := dictSet ({ w with characters := dictSet w.characters cn { c with friends := dictSet c.friends g (max 0 (min 1 (lv + 0.05 * lv))) }, memories := ms3 } : World).characters g { fc with friends := dictSet fc.friends cn (max 0 (min 1 ((dictGet fc.friends cn).getD 0 + 0.05 * lv))) } } : World) = { w with characters := dictSet (dictSet w.characters cn { c with friends := dictSet c.friends g (max 0 (min 1 (lv + 0.05 * lv))) }) g { fc with friends := dictSet fc.friends cn (max 0 (min 1 ((dictGet fc.friends cn).getD 0 + 0.05 * lv))) }, memories := ms3 } from rfl, hm4]
  exact ⟨ms4, rfl⟩

theorem birthday_fold_spec (env : Env) (cn : String) (age : ℤ) :
    ∀ (fs : List (String × ℚ)) (w : World) (c : Character),
      dictGet w.characters cn = some c →
      namesConsistent w →
      (fs.map Prod.fst).Nodup →
      (∀ g ∈ fs.map Prod.fst, g ≠ cn) →
      (∀ p ∈ fs, dictGet c.friends p.1 = some p.2) →
      CoreStep w (fs.foldl (birthdayFriendStep env cn cn age) w) ∧
      namesConsistent (fs.foldl (birthdayFriendStep env cn cn age) w) ∧
      (∃ c', dictGet (fs.foldl (birthdayFriendStep env cn cn age) w).characters cn = some c' ∧
        (∀ g, g ∉ fs.map Prod.fst → dictGet c'.friends g = dictGet c.friends g) ∧
        (∀ p ∈ fs, dictMem w.characters p.1 = true →
          dictGet c'.friends p.1 = some (max 0 (min 1 (p.2 + 0.05 * p.2)))) ∧
        (∀ p ∈ fs, dictMem w.characters p.1 = false →
          dictGet c'.friends p.1 = dictGet c.friends p.1)) ∧
      (∀ n, n ∉ fs.map Prod.fst → n ≠ cn →
        dictGet (fs.foldl (birthdayFriendStep env cn cn age) w).characters n = dictGet w.characters n) ∧
      (∀ p ∈ fs, ∀ fc, dictGet w.characters p.1 = some fc →
        ∃ fc', dictGet (fs.foldl (birthdayFriendStep env cn cn age) w).characters p.1 = some fc' ∧
          dictGet fc'.friends cn = some (max 0 (min 1 ((dictGet fc.friends cn).getD 0 + 0.05 * p.2))) ∧
          ∀ k, k ≠ cn → dictGet fc'.friends k = dictGet fc.friends k) := by
  intro fs
  induction fs with
  | nil =>
    intro w c hc hnames hnd hne hsnap
    exact ⟨coreStep_refl w, hnames,
      ⟨c, hc, fun g _ => rfl, fun p hp => absurd hp (List.not_mem_nil p),
        fun p hp => absurd hp (List.not_mem_nil p)⟩,
      fun n _ _ => rfl, fun p hp => absurd hp (List.not_mem_nil p)⟩
  | cons hd tl ih =>
    obtain ⟨g, lv⟩ := hd
    intro w c hc hnames hnd hne hsnap
    have hgcn : g ≠ cn := hne g (by rw [List.map_cons]; exact List.mem_cons_self _ _)
    have hgtl : g ∉ tl.map Prod.fst := by
      rw [List.map_cons, List.nodup_cons] at hnd
      exact hnd.1
    have hndtl : (tl.map Prod.fst).Nodup := by
      rw [List.map_cons, List.nodup_cons] at hnd
      exact hnd.2
    have hnetl : ∀ x ∈ tl.map Prod.fst, x ≠ cn := fun x hx =>
      hne x (by rw [List.map_cons]; exact List.mem_cons_of_mem _ hx)
    have hsnaptl : ∀ p ∈ tl, dictGet c.friends p.1 = some p.2 := fun p hp =>
      hsnap p (List.mem_cons_of_mem _ hp)
    rw [List.foldl_cons]
    cases hgw : dictGet w.characters g with
    | none =>
      have hstep : birthdayFriendStep env cn cn age w (g, lv) = w := by
        simp only [birthdayFriendStep, hgw]
      rw [hstep]
      obtain ⟨hcore, hnm, ⟨c', hgc', hunt, hmemT, hmemF⟩, hoth, hfr⟩ :=
        ih w c hc hnames hndtl hnetl hsnaptl
      have hmemg : dictMem w.characters g = false := by
        unfold dictMem
        rw [hgw]
        rfl
      refine ⟨hcore, hnm, ⟨c', hgc', ?_, ?_, ?_⟩, ?_, ?_⟩
      · intro x hx
        exact hunt x (fun hm => hx (by rw [List.map_cons]; exact List.mem_cons_of_mem _ hm))
      · intro p hp hmem
        rcases List.mem_cons.mp hp with heq | hp'
        · subst heq
          rw [hmemg] at hmem
          exact absurd hmem (by simp)
        · exact hmemT p hp' hmem
      · intro p hp hmem
        rcases List.mem_cons.mp hp with heq | hp'
        · subst heq
          exact hunt g hgtl
        · exact hmemF p hp' hmem
      · intro n hn hncn
        exact hoth n (fun hm => hn (by rw [List.map_cons]; exact List.mem_cons_of_mem _ hm)) hncn
      · intro p hp fc0 hfc0
        rcases List.mem_cons.mp hp with heq | hp'
        · subst heq
          rw [hgw] at hfc0
          exact absurd hfc0 (by simp)
        · exact hfr p hp' fc0 hfc0
    | some fc =>
      obtain ⟨ms, hstep⟩ := birthdayFriendStep_eq env cn age w g lv c fc hc hgw hnames hgcn
        (hsnap (g, lv) (List.mem_cons_self _ _))
      rw [hstep]
      set v1 := max 0 (min 1 (lv + 0.05 * lv)) with hv1
      set v2 := max 0 (min 1 ((dictGet fc.friends cn).getD 0 + 0.05 * lv)) with hv2
      set cmid : Character := { c with friends := dictSet c.friends g v1 } with hcmid
      set fcmid : Character := { fc with friends := dictSet fc.friends cn v2 } with hfcmid
      set W1 : World := { w with characters := dictSet (dictSet w.characters cn cmid) g fcmid, memories := ms } with hW1eq
      have hcW1 : dictGet W1.characters cn = some cmid := by
        show dictGet (dictSet (dictSet w.characters cn cmid) g fcmid) cn = some cmid
        rw [dictGet_set_ne _ _ hgcn, dictGet_set_self]
      have hgW1 : dictGet W1.characters g = some fcmid := by
        show dictGet (dictSet (dictSet w.characters cn cmid) g fcmid) g = some fcmid
        rw [dictGet_set_self]
      have hothW1 : ∀ n, n ≠ cn → n ≠ g → dictGet W1.characters n = dictGet w.characters n := by
        intro n h1 h2
        show dictGet (dictSet (dictSet w.characters cn cmid) g fcmid) n = dictGet w.characters n
        rw [dictGet_set_ne _ _ (fun he => h2 he.symm), dictGet_set_ne _ _ (fun he => h1 he.symm)]
      have hnamesW1 : namesConsistent W1 := by
        intro p hp
        have hp' : p ∈ dictSet (dictSet w.characters cn cmid) g fcmid := hp
        rcases mem_dictSet hp' with hx | hx
        · rcases mem_dictSet hx with hy | hy
          · exact hnames p hy
          · subst hy
            exact hnames (cn, c) (dictGet_mem hc)
        · subst hx
          exact hnames (g, fc) (dictGet_mem hgw)
      have hkeys : W1.characters.map Prod.fst = w.characters.map Prod.fst := by
        show (dictSet (dictSet w.characters cn cmid) g fcmid).map Prod.fst = _
        rw [dictSet_keys_of_mem _ (by rw [dictMem_congr_keys (dictSet_keys_of_mem cmid (dictMem_of_get hc)) g]; exact dictMem_of_get hgw),
          dictSet_keys_of_mem _ (dictMem_of_get hc)]
      have hcoreW1 : CoreStep w W1 := by
        refine ⟨⟨rfl, hkeys⟩, ?_⟩
        intro n c0 hn
        by_cases h1 : n = cn
        · subst h1
          have hinj : c0 = c := by
            have h12 := hn.symm.trans hc
            injection h12
          subst hinj
          exact ⟨cmid, hcW1, rfl, rfl, rfl⟩
        · by_cases h2 : n = g
          · subst h2
            have hinj : c0 = fc := by
              have h12 := hn.symm.trans hgw
              injection h12
            subst hinj
            exact ⟨fcmid, hgW1, rfl, rfl, rfl⟩
          · exact ⟨c0, by rw [hothW1 n h1 h2]; exact hn, charCoreEq_refl c0⟩
      have hsnapW1 : ∀ p ∈ tl, dictGet cmid.friends p.1 = some p.2 := by
        intro p hp
        show dictGet (dictSet c.friends g v1) p.1 = some p.2
        rw [dictGet_set_ne _ _ (fun he => hgtl (by rw [he]; exact List.mem_map_of_mem Prod.fst hp))]
        exact hsnaptl p hp
      obtain ⟨hcore2, hnm2, ⟨c', hgc', hunt, hmemT, hmemF⟩, hoth2, hfr2⟩ :=
        ih W1 cmid hcW1 hnamesW1 hndtl hnetl hsnapW1
      refine ⟨coreStep_trans hcoreW1 hcore2, hnm2, ⟨c', hgc', ?_, ?_, ?_⟩, ?_, ?_⟩
      · intro x hx
        have hxg : x ≠ g := fun he => hx (by rw [List.map_cons, he]; exact List.mem_cons_self _ _)
        have hxtl : x ∉ tl.map Prod.fst := fun hm =>
          hx (by rw [List.map_cons]; exact List.mem_cons_of_mem _ hm)
        rw [hunt x hxtl]
        show dictGet (dictSet c.friends g v1) x = dictGet c.friends x
        rw [dictGet_set_ne _ _ (fun he => hxg he.symm)]
      · intro p hp hmem
        rcases List.mem_cons.mp hp with heq | hp'
        · subst heq
          rw [hunt g hgtl]
          show dictGet (dictSet c.friends g v1) g = some v1
          rw [dictGet_set_self]
        · refine hmemT p hp' ?_
          rw [dictMem_congr_keys hkeys]
          exact hmem
      · intro p hp hmem
        rcases List.mem_cons.mp hp with heq | hp'
        · subst heq
          rw [dictMem_of_get hgw] at hmem
          exact absurd hmem (by simp)
        · rw [hmemF p hp' (by rw [dictMem_congr_keys hkeys]; exact hmem)]
          show dictGet (dictSet c.friends g v1) p.1 = dictGet c.friends p.1
          rw [dictGet_set_ne _ _ (fun he => hgtl (by rw [he]; exact List.mem_map_of_mem Prod.fst hp'))]
      · intro n hn hncn
        have hng : n ≠ g := fun he => hn (by rw [List.map_cons, he]; exact List.mem_cons_self _ _)
        have hntl : n ∉ tl.map Prod.fst := fun hm =>
          hn (by rw [List.map_cons]; exact List.mem_cons_of_mem _ hm)
        rw [hoth2 n hntl hncn, hothW1 n hncn hng]
      · intro p hp fc0 hfc0
        rcases List.mem_cons.mp hp with heq | hp'
        · subst heq
          rw [hgw] at hfc0
          have hinj : fc = fc0 := by injection hfc0
          subst hinj
          refine ⟨fcmid, ?_, ?_, ?_⟩
          · rw [hoth2 g hgtl hgcn]
            exact hgW1
          · show dictGet (dictSet fc.friends cn v2) cn = some v2
            rw [dictGet_set_self]
          · intro k hk
            show dictGet (dictSet fc.friends cn v2) k = dictGet fc.friends k
            rw [dictGet_set_ne _ _ (fun he => hk he.symm)]
        · have hpcn : p.1 ≠ cn := hnetl p.1 (List.mem_map_of_mem Prod.fst hp')
          have hpg : p.1 ≠ g := fun he => hgtl (by rw [← he]; exact List.mem_map_of_mem Prod.fst hp')
          have hfcW1 : dictGet W1.characters p.1 = some fc0 := by
            rw [hothW1 p.1 hpcn hpg]
            exact hfc0
          exact hfr2 p hp' fc0 hfcW1

theorem taskFold_characters (env : Env) (cname : String) :
    ∀ (L : List String) (w : World),
      (L.foldl (fun wa t => add_task_done env wa cname t) w).characters = w.characters := by
  intro L
  induction L with
  | nil => intro w; rfl
  | cons t tl ih =>
    intro w
    rw [List.foldl_cons, ih]
    show (add_task_done env w cname t).characters = w.characters
    unfold add_task_done
    rw [add_memory_characters]

/-- Claim C5 amended: during `celebrate_birthday` the increase applied to
BOTH directions of the edge with friend F is `0.05 × (the celebrant's own
entry for F)` — not each entry's own strength; consequently a celebrant
entry of exactly 0 stays 0 and leaves the friend's (in-range) reciprocal
entry unchanged, and under the [0,1] invariant no friendship entry ever
decreases. -/
theorem c5_amended_birthday (env : Env) (w : World) (cn : String) (c : Character)
    (hc : dictGet w.characters cn = some c)
    (hnames : namesConsistent w)
    (hnd : (c.friends.map Prod.fst).Nodup)
    (hnotself : cn ∉ c.friends.map Prod.fst) :
    (∀ (g : String) (lv : ℚ) (fc : Character), (g, lv) ∈ c.friends →
      dictGet w.characters g = some fc →
      (∃ c', dictGet (celebrate_birthday env w cn).characters cn = some c' ∧
        dictGet c'.friends g = some (max 0 (min 1 (lv + 0.05 * lv)))) ∧
      (∃ fc', dictGet (celebrate_birthday env w cn).characters g = some fc' ∧
        dictGet fc'.friends cn = some (max 0 (min 1 ((dictGet fc.friends cn).getD 0 + 0.05 * lv))))) ∧
    (∀ (g : String) (fc : Character) (v : ℚ), (g, 0) ∈ c.friends →
      dictGet w.characters g = some fc →
      dictGet fc.friends cn = some v → 0 ≤ v → v ≤ 1 →
      (∃ c', dictGet (celebrate_birthday env w cn).characters cn = some c' ∧
        dictGet c'.friends g = some 0) ∧
      (∃ fc', dictGet (celebrate_birthday env w cn).characters g = some fc' ∧
        dictGet fc'.friends cn = some v)) ∧
    (friendsInRange w →
      ∀ (n k : String) (nc : Character) (v : ℚ), dictGet w.characters n = some nc →
        dictGet nc.friends k = some v →
        ∃ nc' v', dictGet (celebrate_birthday env w cn).characters n = some nc' ∧
          dictGet nc'.friends k = some v' ∧ v ≤ v') := by
  have hcn : c.character_name = cn := hnames (cn, c) (dictGet_mem hc)
  simp only [celebrate_birthday, hc]
  rw [hcn]
  obtain ⟨ms0, hm0⟩ := add_memory_cases env w cn
    ("Celebrated " ++ cn ++ "'s " ++ toString (get_age w c) ++ "th birthday!") false
  rw [hm0]
  have hcW0 : dictGet ({ w with memories := ms0 } : World).characters cn = some c := hc
  have hnamesW0 : namesConsistent { w with memories := ms0 } := hnames
  have hne : ∀ g ∈ c.friends.map Prod.fst, g ≠ cn := fun g hg he => hnotself (he ▸ hg)
  have hsnap : ∀ p ∈ c.friends, dictGet c.friends p.1 = some p.2 := fun p hp =>
    dictGet_of_nodup_mem hnd hp
  obtain ⟨hcore, hnm, ⟨c', hgc', hunt, hmemT, hmemF⟩, hoth, hfr⟩ :=
    birthday_fold_spec env cn (get_age w c) c.friends { w with memories := ms0 } c
      hcW0 hnamesW0 hnd hne hsnap
  refine ⟨?_, ?_, ?_⟩
  · intro g lv fc hmem hgfc
    constructor
    · refine ⟨c', ?_, ?_⟩
      · rw [taskFold_characters env cn]
        exact hgc'
      · exact hmemT (g, lv) hmem (dictMem_of_get hgfc)
    · obtain ⟨fc', hgfc', hval, _⟩ := hfr (g, lv) hmem fc hgfc
      refine ⟨fc', ?_, hval⟩
      rw [taskFold_characters env cn]
      exact hgfc'
  · intro g fc v hmem0 hgfc hfcv hv0 hv1
    constructor
    · refine ⟨c', ?_, ?_⟩
      · rw [taskFold_characters env cn]
        exact hgc'
      · have hT := hmemT (g, 0) hmem0 (dictMem_of_get hgfc)
        rw [hT]
        norm_num
    · obtain ⟨fc', hgfc', hval, _⟩ := hfr (g, 0) hmem0 fc hgfc
      refine ⟨fc', ?_, ?_⟩
      · rw [taskFold_characters env cn]
        exact hgfc'
      · rw [hval, hfcv]
        simp only [Option.getD_some]
        rw [show (0.05 : ℚ) * ((g, (0 : ℚ)).2) = 0 from by norm_num, add_zero,
          min_eq_right hv1, max_eq_right hv0]
  · intro hrange n k nc v hn hk
    by_cases h1 : n = cn
    · subst h1
      have hinj : nc = c := by
        have h12 := hn.symm.trans hc
        injection h12
      subst hinj
      have hkv : (k, v) ∈ nc.friends := dictGet_mem hk
      have hvb := hrange (n, nc) (dictGet_mem hc) (k, v) hkv
      by_cases hmem : dictMem w.characters k = true
      · have hT := hmemT (k, v) hkv hmem
        refine ⟨c', max 0 (min 1 (v + 0.05 * v)), ?_, hT, ?_⟩
        · rw [taskFold_characters env n]
          exact hgc'
        · refine le_trans (le_min hvb.2 ?_) (le_max_right 0 _)
          exact le_add_of_nonneg_right (mul_nonneg (by norm_num) hvb.1)
      · have hF := hmemF (k, v) hkv (by simpa using hmem)
        refine ⟨c', v, ?_, ?_, le_refl v⟩
        · rw [taskFold_characters env n]
          exact hgc'
        · rw [hF]
          exact hk
    · cases hfn : dictGet c.friends n with
      | some lvn =>
        have hmemn : (n, lvn) ∈ c.friends := dictGet_mem hfn
        obtain ⟨fc', hgfc', hvalcn, hother⟩ := hfr (n, lvn) hmemn nc hn
        by_cases hkcn : k = cn
        · subst hkcn
          rw [hk] at hvalcn
          simp only [Option.getD_some] at hvalcn
          have h0lvn : 0 ≤ lvn := (hrange (k, c) (dictGet_mem hc) (n, lvn) hmemn).1
          have hvb := hrange (n, nc) (dictGet_mem hn) (k, v) (dictGet_mem hk)
          refine ⟨fc', max 0 (min 1 (v + 0.05 * lvn)), ?_, hvalcn, ?_⟩
          · rw [taskFold_characters env k]
            exact hgfc'
          · refine le_trans (le_min hvb.2 ?_) (le_max_right 0 _)
            exact le_add_of_nonneg_right (mul_nonneg (by norm_num) h0lvn)
        · refine ⟨fc', v, ?_, ?_, le_refl v⟩
          · rw [taskFold_characters env cn]
            exact hgfc'
          · rw [hother k hkcn]
            exact hk
      | none =>
        have hnotin : n ∉ c.friends.map Prod.fst := by
          intro hmm
          obtain ⟨p, hp, hfst⟩ := List.mem_map.mp hmm
          have hsome := dictGet_of_nodup_mem hnd hp
          rw [hfst] at hsome
          exact absurd (hsome.symm.trans hfn) (by simp)
        have huntouched := hoth n hnotin h1
        refine ⟨nc, v, ?_, hk, le_refl v⟩
        rw [taskFold_characters env cn, huntouched]
        exact hn

/-- Claim C5 counterexample: with A holding strength 1/2 towards B while
B holds exactly 0 towards A, A's birthday celebration raises B's zero entry
to 1/40 — the increase is 0.05 × A's entry, so a strength of exactly 0 does
not remain 0. -/
theorem c5_counterexample :
    dictGet charB5.friends "A" = some 0 ∧
    (dictGet (celebrate_birthday envA w5 "A").characters "B").map (fun ch => dictGet ch.friends "A") = some (some (1/40 : ℚ)) ∧
    (1/40 : ℚ) ≠ 0 := by
  refine ⟨by simp [charB5, charNamed, mkCharacter, dictGet], ?_, by norm_num⟩
  have hget : dictGet w5.characters "A" = some charA5 := rfl
  have hB : dictGet w5.characters "B" = some charB5 := rfl
  simp only [celebrate_birthday, hget]
  rw [show charA5.character_name = "A" from rfl]
  obtain ⟨ms0, hm0⟩ := add_memory_cases envA w5 "A"
    ("Celebrated " ++ "A" ++ "'s " ++ toString (get_age w5 charA5) ++ "th birthday!") false
  rw [hm0]
  have hcW0 : dictGet ({ w5 with memories := ms0 } : World).characters "A" = some charA5 := rfl
  have hnamesW0 : namesConsistent { w5 with memories := ms0 } := by
    intro p hp
    have hp' : p ∈ w5.characters := hp
    simp [w5, baseWorld] at hp'
    rcases hp' with rfl | rfl <;> rfl
  have hnd : (charA5.friends.map Prod.fst).Nodup := by
    simp [charA5, charNamed, mkCharacter]
  have hne2 : ∀ g ∈ charA5.friends.map Prod.fst, g ≠ "A" := by
    intro g hg
    simp [charA5, charNamed, mkCharacter] at hg
    subst hg
    decide
  have hsnap : ∀ p ∈ charA5.friends, dictGet charA5.friends p.1 = some p.2 := fun p hp =>
    dictGet_of_nodup_mem hnd hp
  obtain ⟨_, _, _, _, hfr⟩ :=
    birthday_fold_spec envA "A" (get_age w5 charA5) charA5.friends
      { w5 with memories := ms0 } charA5 hcW0 hnamesW0 hnd hne2 hsnap
  have hmemB : (("B", (1/2 : ℚ)) ∈ charA5.friends) := by
    simp [charA5, charNamed, mkCharacter]
  obtain ⟨fc', hgfc', hval, _⟩ := hfr ("B", 1/2) hmemB charB5 hB
  rw [taskFold_characters envA "A", hgfc', Option.map_some', hval]
  have hB0 : dictGet charB5.friends "A" = some 0 := by
    simp [charB5, charNamed, mkCharacter, dictGet]
  rw [hB0]
  simp only [Option.getD_some]
  rw [show (0 : ℚ) + 0.05 * ((("B", (1/2 : ℚ))).2) = 1/40 from by norm_num,
    min_eq_right (by norm_num), max_eq_right (by norm_num)]

/-- Claim C5 witness: in the asymmetric world, A's own entry for B becomes
clamp(1.05 × 1/2) = 21/40 and B's reciprocal zero entry becomes 1/40, both
derived from the amended characterization. -/
theorem c5_witness :
    (dictGet (celebrate_birthday envA w5 "A").characters "A").map (fun ch => dictGet ch.friends "B") = some (some (21/40 : ℚ)) ∧
    (dictGet (celebrate_birthday envA w5 "A").characters "B").map (fun ch => dictGet ch.friends "A") = some (some (1/40 : ℚ)) := by
  have hnames : namesConsistent w5 := by
    intro p hp
    simp [w5, baseWorld] at hp
    rcases hp with rfl | rfl <;> rfl
  have hnd : (charA5.friends.map Prod.fst).Nodup := by
    simp [charA5, charNamed, mkCharacter]
  have hnotself : "A" ∉ charA5.friends.map Prod.fst := by
    simp [charA5, charNamed, mkCharacter]
  have hmemB : (("B", (1/2 : ℚ)) ∈ charA5.friends) := by
    simp [charA5, charNamed, mkCharacter]
  obtain ⟨⟨c', hgc', hcval⟩, ⟨fc', hgfc', hfval⟩⟩ :=
    (c5_amended_birthday envA w5 "A" charA5 rfl hnames hnd hnotself).1 "B" (1/2) charB5 hmemB rfl
  constructor
  · rw [hgc', Option.map_some', hcval]
    rw [show (1/2 : ℚ) + 0.05 * (1/2 : ℚ) = 21/40 from by norm_num,
      min_eq_right (by norm_num), max_eq_right (by norm_num)]
  · rw [hgfc', Option.map_some', hfval]
    rw [show dictGet charB5.friends "A" = some (0 : ℚ) from by simp [charB5, charNamed, mkCharacter, dictGet]]
    simp only [Option.getD_some]
    rw [show (0 : ℚ) + 0.05 * (1/2 : ℚ) = 1/40 from by norm_num,
      min_eq_right (by norm_num), max_eq_right (by norm_num)]

/-- Claim C7: for two distinct registered characters, `communicate(A→B)`
clamps both directed friendship entries up by exactly 0.01 and appends
exactly three memory records, of which exactly one — the first — is the
inbound-message memory for B; no friendship precondition appears anywhere
(the hypotheses only say the external extraction judged each record worth
keeping). -/
theorem c7_communicate_spec (env : Env) (w : World) (A B msg : String)
    (a b : Character) (hA : dictGet w.characters A = some a)
    (hB : dictGet w.characters B = some b) (hAB : A ≠ B)
    (hnames : namesConsistent w)
    (he1 : stripStr (env.extract (inboundText env A msg)) ≠ "\"\"")
    (he2 : stripStr (env.extract (friendshipText B (max 0 (min 1 ((dictGet a.friends B).getD 0 + 0.01))))) ≠ "\"\"")
    (he3 : stripStr (env.extract (friendshipText A (max 0 (min 1 ((dictGet b.friends A).getD 0 + 0.01))))) ≠ "\"\"") :
    ∃ a' b', dictGet (communicate env w A B msg).characters A = some a' ∧
      dictGet (communicate env w A B msg).characters B = some b' ∧
      dictGet a'.friends B = some (max 0 (min 1 ((dictGet a.friends B).getD 0 + 0.01))) ∧
      dictGet b'.friends A = some (max 0 (min 1 ((dictGet b.friends A).getD 0 + 0.01))) ∧
      (communicate env w A B msg).memories = w.memories ++ [⟨B, stripStr (env.extract (inboundText env A msg)), false⟩, ⟨A, stripStr (env.extract (friendshipText B (max 0 (min 1 ((dictGet a.friends B).getD 0 + 0.01))))), false⟩, ⟨B, stripStr (env.extract (friendshipText A (max 0 (min 1 ((dictGet b.friends A).getD 0 + 0.01))))), false⟩] := by
  have haname : a.character_name = A := hnames (A, a) (dictGet_mem hA)
  have hbname : b.character_name = B := hnames (B, b) (dictGet_mem hB)
  have hBa : B ≠ a.character_name := by rw [haname]; exact Ne.symm hAB
  have hAb : A ≠ b.character_name := by rw [hbname]; exact hAB
  set lvlA := max 0 (min 1 ((dictGet a.friends B).getD 0 + 0.01)) with hlvlA
  set lvlB := max 0 (min 1 ((dictGet b.friends A).getD 0 + 0.01)) with hlvlB
  set r1 : MemoryRecord := ⟨B, stripStr (env.extract (inboundText env A msg)), false⟩ with hmr1
  set r2 : MemoryRecord := ⟨A, stripStr (env.extract (friendshipText B lvlA)), false⟩ with hmr2
  set r3 : MemoryRecord := ⟨B, stripStr (env.extract (friendshipText A lvlB)), false⟩ with hmr3
  set a' : Character := { a with friends := dictSet a.friends B lvlA } with ha'
  set b' : Character := { b with friends := dictSet b.friends A lvlB } with hb'
  have hA1 : dictGet ({ w with memories := w.memories ++ [r1] } : World).characters A = some a := hA
  have h1 : communicate env w A B msg =
      update_friendship env (update_friendship env { w with memories := w.memories ++ [r1] } A B 0.01) B A 0.01 := by
    simp only [communicate, hA, hB, haname, receive_message]
    rw [add_memory_of_ne env w B _ false he1]
  have h2 : update_friendship env { w with memories := w.memories ++ [r1] } A B 0.01 =
      { w with characters := dictSet w.characters A a', memories := w.memories ++ [r1, r2] } := by
    rw [update_friendship_eq env _ A B 0.01 a hA1 hBa, add_memory_of_ne env _ A _ false he2]
    simp only [List.append_assoc, List.cons_append, List.nil_append]
  have hB2 : dictGet ({ w with characters := dictSet w.characters A a', memories := w.memories ++ [r1, r2] } : World).characters B = some b := by
    show dictGet (dictSet w.characters A a') B = some b
    rw [dictGet_set_ne _ _ hAB]
    exact hB
  have h3 : update_friendship env { w with characters := dictSet w.characters A a', memories := w.memories ++ [r1, r2] } B A 0.01 =
      { w with characters := dictSet (dictSet w.characters A a') B b', memories := w.memories ++ [r1, r2, r3] } := by
    rw [update_friendship_eq env _ B A 0.01 b hB2 hAb, add_memory_of_ne env _ B _ false he3]
    simp only [List.append_assoc, List.cons_append, List.nil_append]
  have hfin : communicate env w A B msg =
      { w with characters := dictSet (dictSet w.characters A a') B b', memories := w.memories ++ [r1, r2, r3] } := by
    rw [h1, h2, h3]
  refine ⟨a', b', ?_, ?_, ?_, ?_, ?_⟩
  · rw [hfin]
    show dictGet (dictSet (dictSet w.characters A a') B b') A = some a'
    rw [dictGet_set_ne _ _ (Ne.symm hAB)]
    exact dictGet_set_self _ _ _
  · rw [hfin]
    show dictGet (dictSet (dictSet w.characters A a') B b') B = some b'
    exact dictGet_set_self _ _ _
  · exact dictGet_set_self _ _ _
  · exact dictGet_set_self _ _ _
  · rw [hfin]

theorem wf_add_memory (env : Env) (w : World) (n m : String) (u : Bool)
    (h : WF w) : WF (add_memory env w n m u) := by
  obtain ⟨ms, hm⟩ := add_memory_cases env w n m u
  rw [hm]
  exact h

theorem wf_add_task_done (env : Env) (w : World) (n t : String) (h : WF w) :
    WF (add_task_done env w n t) := by
  unfold add_task_done
  exact wf_add_memory env w n _ false h

theorem wf_update_friendship (env : Env) (w : World) (a b : String) (q : ℚ)
    (h : WF w) : WF (update_friendship env w a b q) := by
  cases hget : dictGet w.characters a with
  | none =>
    rw [update_friendship_none env w a b q hget]
    exact h
  | some c =>
    by_cases hb : b ≠ c.character_name
    · rw [update_friendship_eq env w a b q c hget hb]
      refine wf_add_memory env _ a _ false ?_
      have hcn : c.character_name = a := h.1 (a, c) (dictGet_mem hget)
      constructor
      · intro p hp
        rcases mem_dictSet hp with h1 | h1
        · exact h.1 p h1
        · subst h1
          exact hcn
      · intro p hp
        rcases mem_dictSet hp with h1 | h1
        · exact h.2 p h1
        · subst h1
          show dictGet (dictSet c.friends b _) a = none
          rw [dictGet_set_ne _ _ (fun he => hb (he.trans hcn.symm))]
          exact h.2 (a, c) (dictGet_mem hget)
    · have hb' : b = c.character_name := not_not.mp hb
      subst hb'
      rw [update_friendship_self env w a q c hget]
      exact h

theorem wf_foldl {β : Type} (F : World → β → World)
    (H : ∀ w b, WF w → WF (F w b)) :
    ∀ (L : List β) (w : World), WF w → WF (L.foldl F w) := by
  intro L
  induction L with
  | nil => intro w h; exact h
  | cons b tl ih => intro w h; exact ih (F w b) (H w b h)

theorem wf_birthdayFriendStep (env : Env) (cname cbname : String) (age : ℤ)
    (w : World) (p : String × ℚ) (h : WF w) :
    WF (birthdayFriendStep env cname cbname age w p) := by
  cases hget : dictGet w.characters p.1 with
  | none =>
    simp only [birthdayFriendStep, hget]
    exact h
  | some fc =>
    simp only [birthdayFriendStep, hget]
    apply wf_update_friendship
    apply wf_update_friendship
    apply wf_add_task_done
    apply wf_add_memory
    exact h

theorem wf_celebrate (env : Env) (cname : String) (w : World) (h : WF w) :
    WF (celebrate_birthday env w cname) := by
  cases hget : dictGet w.characters cname with
  | none =>
    simp only [celebrate_birthday, hget]
    exact h
  | some c =>
    simp only [celebrate_birthday, hget]
    apply wf_foldl _ (fun wa t hw => wf_add_task_done env wa cname t hw)
    apply wf_foldl _ (fun wa p hw => wf_birthdayFriendStep env cname c.character_name (get_age w c) wa p hw)
    apply wf_add_memory
    exact h

theorem wf_update_daily (env : Env) (cname : String) (w : World) (h : WF w) :
    WF (update_daily env w cname) := by
  cases hget : dictGet w.characters cname with
  | none =>
    simp only [update_daily, hget]
    exact h
  | some c0 =>
    simp only [update_daily, hget]
    apply wf_add_memory
    have h1 : WF (if is_birthday w c0 then celebrate_birthday env w cname else w) := by
      split
      · exact wf_celebrate env cname w h
      · exact h
    set w1 := if is_birthday w c0 then celebrate_birthday env w cname else w with hw1
    cases hg1 : dictGet w1.characters cname with
    | none =>
      simp only [hg1]
      exact h1
    | some c1 =>
      simp only [hg1]
      split
      · apply wf_add_memory
        have hcn : c1.character_name = cname := h1.1 (cname, c1) (dictGet_mem hg1)
        constructor
        · intro p hp
          rcases mem_dictSet hp with hx | hx
          · exact h1.1 p hx
          · subst hx
            exact hcn
        · intro p hp
          rcases mem_dictSet hp with hx | hx
          · exact h1.2 p hx
          · subst hx
            show dictGet c1.friends cname = none
            exact h1.2 (cname, c1) (dictGet_mem hg1)
      · exact h1

theorem wf_move (env : Env) (a l : String) (w : World) (h : WF w) :
    WF (move_to_location env w a l) := by
  cases hget : dictGet w.characters a with
  | none =>
    simp only [move_to_location, hget]
    exact h
  | some c =>
    cases hfind : w.locations.find? (fun loc => decide (loc.name = l)) with
    | none =>
      simp only [move_to_location, hget, hfind]
      exact h
    | some loc =>
      simp only [move_to_location, hget, hfind]
      have hcn : c.character_name = a := h.1 (a, c) (dictGet_mem hget)
      have hW1 : WF { w with characters := dictSet w.characters a { c with location := l, timezone := loc.timezone } } := by
        constructor
        · intro p hp
          rcases mem_dictSet hp with hx | hx
          · exact h.1 p hx
          · subst hx
            exact hcn
        · intro p hp
          rcases mem_dictSet hp with hx | hx
          · exact h.2 p hx
          · subst hx
            show dictGet c.friends a = none
            exact h.2 (a, c) (dictGet_mem hget)
      split
      · apply wf_add_memory
        have h2 := wf_add_memory env _ a ("Moved to " ++ l ++ ".") false hW1
        constructor
        · intro p hp
          rcases mem_dictSet hp with hx | hx
          · exact h2.1 p hx
          · subst hx
            exact hcn
        · intro p hp
          rcases mem_dictSet hp with hx | hx
          · exact h2.2 p hx
          · subst hx
            show dictGet c.friends a = none
            exact h.2 (a, c) (dictGet_mem hget)
      · exact wf_add_memory env _ a _ false hW1

theorem wf_dayStep (env : Env) (w : World) (h : WF w) : WF (dayStep env w) := by
  simp only [dayStep]
  apply wf_foldl _ (fun wa n hw => wf_update_daily env n wa hw)
  exact h

theorem wf_advance (env : Env) (days : ℕ) :
    ∀ w : World, WF w → WF (advance_time env days w) := by
  induction days with
  | zero => intro w h; exact h
  | succ n ih =>
    intro w h
    show WF (advance_time env n (dayStep env w))
    exact ih _ (wf_dayStep env w h)

theorem foldl_init_get_self (cname : String) :
    ∀ (ns : List String) (fs : List (String × ℚ)), dictGet fs cname = none →
      dictGet (ns.foldl (fun fs n => if n ≠ cname then dictSet fs n 0 else fs) fs) cname = none := by
  intro ns
  induction ns with
  | nil => intro fs h; exact h
  | cons n tl ih =>
    intro fs h
    rw [List.foldl_cons]
    by_cases hn : n ≠ cname
    · refine ih _ ?_
      show dictGet (if n ≠ cname then dictSet fs n 0 else fs) cname = none
      rw [if_pos hn, dictGet_set_ne _ _ hn]
      exact h
    · refine ih _ ?_
      show dictGet (if n ≠ cname then dictSet fs n 0 else fs) cname = none
      rw [if_neg hn]
      exact h

theorem wf_add_character_of (w : World) (c : Character)
    (hself : dictGet c.friends c.character_name = none) (h : WF w) :
    WF (add_character w c) := by
  have hW1 : WF { w with characters := dictSet w.characters c.character_name c } := by
    constructor
    · intro p hp
      rcases mem_dictSet hp with hx | hx
      · exact h.1 p hx
      · subst hx
        rfl
    · intro p hp
      rcases mem_dictSet hp with hx | hx
      · exact h.2 p hx
      · subst hx
        exact hself
  have hself1 : dictGet (init_friendships { w with characters := dictSet w.characters c.character_name c } c).friends c.character_name = none := by
    simp only [init_friendships]
    exact foldl_init_get_self c.character_name _ c.friends hself
  have hW2 : WF { w with characters := dictSet (dictSet w.characters c.character_name c) c.character_name (init_friendships { w with characters := dictSet w.characters c.character_name c } c) } := by
    constructor
    · intro p hp
      rcases mem_dictSet hp with hx | hx
      · exact hW1.1 p hx
      · subst hx
        rfl
    · intro p hp
      rcases mem_dictSet hp with hx | hx
      · exact hW1.2 p hx
      · subst hx
        exact hself1
  simp only [add_character]
  constructor
  · intro p' hp'
    obtain ⟨p, hp, hfp⟩ := List.mem_map.mp hp'
    by_cases hpk : p.1 = c.character_name
    · rw [← hfp, if_pos hpk]
      exact hW2.1 p hp
    · rw [← hfp, if_neg hpk]
      show p.2.character_name = p.1
      exact hW2.1 p hp
  · intro p' hp'
    obtain ⟨p, hp, hfp⟩ := List.mem_map.mp hp'
    by_cases hpk : p.1 = c.character_name
    · rw [← hfp, if_pos hpk]
      exact hW2.2 p hp
    · rw [← hfp, if_neg hpk]
      show dictGet (dictSet p.2.friends c.character_name 0) p.1 = none
      rw [dictGet_set_ne _ _ (fun he => hpk he.symm)]
      exact hW2.2 p hp

theorem wf_applyOp (env : Env) (w : World) (op : SimOp) (h : WF w) :
    WF (applyOp env w op) := by
  cases op with
  | addChar i => exact wf_add_character_of w (mkCharacter i) rfl h
  | updateFriendship a b q => exact wf_update_friendship env w a b q h
  | sendMessage a b m =>
    show WF (communicate env w a b m)
    cases hga : dictGet w.characters a with
    | none =>
      simp only [communicate, hga]
      exact h
    | some ca =>
      cases hgb : dictGet w.characters b with
      | none =>
        simp only [communicate, hga, hgb]
        exact h
      | some cb =>
        simp only [communicate, hga, hgb, receive_message]
        apply wf_update_friendship
        apply wf_update_friendship
        apply wf_add_memory
        exact h
  | moveTo a l => exact wf_move env a l w h
  | birthday a => exact wf_celebrate env a w h
  | advanceDays n => exact wf_advance env n w h

/-- Claim C10: a character never holds a friendship entry for itself —
`update_friendship` with the character's own name is a complete no-op, the
friendship initialization skips the own name, `add_character` backfills only
the other characters' maps, and the no-self-key invariant is preserved by
every sequence of registration, friendship, messaging, movement, birthday,
and time-advance operations. -/
theorem c10_no_self_friend (env : Env) (ops : List SimOp) (w : World)
    (h : namesConsistent w ∧ NoSelfFriend w) :
    NoSelfFriend (applyOps env ops w) ∧
    (∀ (a : String) (q : ℚ) (c : Character), dictGet w.characters a = some c →
      update_friendship env w a c.character_name q = w) := by
  constructor
  · have hall : ∀ (L : List SimOp) (w0 : World), WF w0 → WF (applyOps env L w0) := by
      intro L
      induction L with
      | nil => intro w0 h0; exact h0
      | cons op tl ih => intro w0 h0; exact ih (applyOp env w0 op) (wf_applyOp env w0 op h0)
    exact (hall ops w h).2
  · intro a q c hget
    exact update_friendship_self env w a q c hget

/-- Claim C10 witness: after a self-directed update attempt, messaging, and
a day advance (which runs a birthday) no map holds its owner's name, and
the self-directed update is literally the identity. -/
theorem c10_witness :
    NoSelfFriend (applyOps envA [SimOp.updateFriendship "A" "A" 1, SimOp.sendMessage "A" "B" "hi", SimOp.advanceDays 1] w5) ∧
    update_friendship envA w5 "A" "A" 1 = w5 := by
  have hwf : namesConsistent w5 ∧ NoSelfFriend w5 := by
    constructor
    · intro p hp
      simp [w5, baseWorld] at hp
      rcases hp with rfl | rfl <;> rfl
    · intro p hp
      simp [w5, baseWorld] at hp
      rcases hp with rfl | rfl <;> rfl
  refine ⟨(c10_no_self_friend envA [SimOp.updateFriendship "A" "A" 1, SimOp.sendMessage "A" "B" "hi", SimOp.advanceDays 1] w5 hwf).1, ?_⟩
  exact (c10_no_self_friend envA [] w5 hwf).2 "A" 1 charA5 rfl

/-- Claim C7 witness: `communicate` from A to B in the asymmetric world
raises A's entry to 0.51, creates B's clamped entry at 0.01, and appends
exactly three records with B's inbound memory first. -/
theorem c7_witness :
    (dictGet (communicate envA w5 "A" "B" "hi").characters "A").map (fun c => dictGet c.friends "B") = some (some (51/100 : ℚ)) ∧
    (dictGet (communicate envA w5 "A" "B" "hi").characters "B").map (fun c => dictGet c.friends "A") = some (some (1/100 : ℚ)) ∧
    (communicate envA w5 "A" "B" "hi").memories = w5.memories ++ [⟨"B", "m", false⟩, ⟨"A", "m", false⟩, ⟨"B", "m", false⟩] := by
  have hnames : namesConsistent w5 := by
    intro p hp
    simp [w5, baseWorld] at hp
    rcases hp with rfl | rfl <;> rfl
  obtain ⟨a', b', hga, hgb, hfa, hfb, hmem⟩ :=
    c7_communicate_spec envA w5 "A" "B" "hi" charA5 charB5 rfl rfl (by decide) hnames
      (by decide) (by decide) (by decide)
  have hva : max 0 (min 1 ((dictGet charA5.friends "B").getD 0 + 0.01)) = (51/100 : ℚ) := by
    have : (dictGet charA5.friends "B").getD 0 = (1/2 : ℚ) := by
      simp [charA5, dictGet]
    rw [this]
    rw [min_eq_right (by norm_num), max_eq_right (by norm_num)]
    norm_num
  have hvb : max 0 (min 1 ((dictGet charB5.friends "A").getD 0 + 0.01)) = (1/100 : ℚ) := by
    have : (dictGet charB5.friends "A").getD 0 = (0 : ℚ) := by
      simp [charB5, dictGet]
    rw [this]
    rw [min_eq_right (by norm_num), max_eq_right (by norm_num)]
    norm_num
  refine ⟨?_, ?_, ?_⟩
  · rw [hga, Option.map_some', hfa, hva]
  · rw [hgb, Option.map_some', hfb, hvb]
  · rw [hmem]
    rfl

end WorldSim
